import Mathlib

/-!
Per-key FIFO queue store and its HTTP handler (`main.go`).

A shallow embedding of the queue server: the type `Storage` with its two maps
and its mutex, the three methods `Add`, `Get` and `Subscribe`, the function
`path` and the handler `Handlers.handle`.

Modelling choices.

* A Go map `map[string][]T` is a function `String → Option (List T)`; `none`
  is an absent key, `some []` a key that is present with an empty slice.
* A `chan string` made by `make(chan string)` is identified by a number. The
  channel objects live on the heap, next to the store; their status is kept in
  the field `chans`. All channels of the program are unbuffered.
* The embedded `sync.Mutex` is the field `locked`. Every method starts with
  `s.Lock()` and ends with the deferred `s.Unlock()`, so a call runs from entry
  to return inside one critical section; a call is therefore one function from
  state to `Outcome`, and a run of the server is a sequence of calls.
* A call either returns (`ret`), never returns because it waits for something
  that cannot happen any more (`block`), or panics (`panic`). Each outcome
  carries the state the call leaves behind.
* Invariants are proved for runs of store-level steps (`Ev`, `steps`): the
  critical sections and the steps of a waiting `Subscribe` in any interleaving,
  with the mutex not enforced. Every run of calls is such a run.
* A request is what the handler reads of it: method, path and the two query
  parameters. A string is its list of characters; `strings.Split` on "/" is
  `splitSlash`.
-/

namespace Queue

/-- Identity of a channel value made by `make(chan string)`. -/
abbrev Chan := Nat

/-- Status of an unbuffered `chan string`. -/
inductive ChanStatus where
  /-- Open, and no goroutine is receiving from it: a send waits. -/
  | idle
  /-- Open, and the `Subscribe` call that made it waits in its `select`: a send
  is taken at once. -/
  | parked
  /-- Open, its receiver has taken the value `v` and has left the `select`. -/
  | got (v : String)
  /-- The deferred `close(ch)` has run: a send panics. -/
  | closed
deriving DecidableEq, Repr

/-- The error values of the store: `var ErrNotFound = errors.New("not found")`. -/
inductive Err where
  | ErrNotFound
deriving DecidableEq, Repr

/-- The struct `Storage` (fields `repo`, `ch` and the embedded mutex), together
with the channel objects its waitlists point to. -/
structure Storage where
  /-- Field `repo map[string][]string`: the backlog of every key. -/
  repo : String → Option (List String)
  /-- Field `ch map[string][]chan string`: the waitlist of every key. -/
  ch : String → Option (List Chan)
  /-- The embedded `sync.Mutex`: `true` while some call holds it. -/
  locked : Bool
  /-- Status of every channel object. -/
  chans : Chan → ChanStatus
  /-- The channel the next `make(chan string)` returns. -/
  fresh : Chan

/-- Result of a call on the store. -/
inductive Outcome (α : Type) where
  /-- The call returned `a`. -/
  | ret (a : α) (s : Storage)
  /-- The call never returns: its goroutine waits forever in state `s`. -/
  | block (s : Storage)
  /-- The call panicked; its deferred functions have run. -/
  | panic (s : Storage)

/-- The state a call leaves behind, whatever its outcome. -/
def Outcome.state {α : Type} : Outcome α → Storage
  | .ret _ s => s
  | .block s => s
  | .panic s => s

/-- The value a call returned, if it returned. -/
def Outcome.result {α : Type} : Outcome α → Option α
  | .ret a _ => some a
  | _ => none

/-- Whether the call never returns. -/
def Outcome.blocked {α : Type} : Outcome α → Bool
  | .block _ => true
  | _ => false

/-- Whether the call panicked. -/
def Outcome.panicked {α : Type} : Outcome α → Bool
  | .panic _ => true
  | _ => false

/-- A `context.Context` as `Subscribe` sees it: only `ctx.Done()` is used. -/
inductive Context where
  /-- The value `context.Background()`: its `Done()` channel never fires. -/
  | background
  /-- The value of `context.WithTimeout(parent, t seconds)`: `Done()` fires when
  the time is over, at once when `t ≤ 0`. -/
  | withTimeout (t : Int)
deriving DecidableEq, Repr

/-- Whether `<-ctx.Done()` becomes ready at some time. -/
def Context.done : Context → Bool
  | .background => false
  | .withTimeout _ => true

/-- The constructor `NewStorage`: both maps empty, mutex free. -/
def NewStorage : Storage :=
  { repo := fun _ => none
    ch := fun _ => none
    locked := false
    chans := fun _ => .idle
    fresh := 0 }

/-- The pair `s.Lock()` ... `defer s.Unlock()` around a method body. The call
waits while the mutex is held; the deferred unlock runs on return and on panic,
not when the body itself never returns. -/
def withLock {α : Type} (s : Storage) (body : Storage → Outcome α) : Outcome α :=
  if s.locked then .block s
  else
    match body { s with locked := true } with
    | .ret a s1 => .ret a { s1 with locked := false }
    | .panic s1 => .panic { s1 with locked := false }
    | .block s1 => .block s1

/-- The statement `ch <- value` on an unbuffered channel. -/
def send (s : Storage) (c : Chan) (value : String) : Outcome Unit :=
  match s.chans c with
  | .parked => .ret () { s with chans := Function.update s.chans c (.got value) }
  | .closed => .panic s
  | .idle => .block s
  | .got _ => .block s

/-- Body of `Add` between lock and unlock (lines 156-177). -/
def addBody (s : Storage) (name value : String) : Outcome Unit :=
  match s.ch name with
  | some (c :: rest) =>
    send { s with ch := Function.update s.ch name (some rest) } c value
  | _ =>
    match s.repo name with
    | some values =>
      .ret () { s with repo := Function.update s.repo name (some (values ++ [value])) }
    | none =>
      .ret () { s with repo := Function.update s.repo name (some [value]) }

/-- Method `Storage.Add`. -/
def Add (s : Storage) (name value : String) : Outcome Unit :=
  withLock s fun s1 => addBody s1 name value

/-- Body of `Get` between lock and unlock (lines 185-195). -/
def getBody (s : Storage) (name : String) : (String × Option Err) × Storage :=
  match s.repo name with
  | some (res :: rest) =>
    ((res, none), { s with repo := Function.update s.repo name (some rest) })
  | _ => (("", some .ErrNotFound), s)

/-- Method `Storage.Get`. -/
def Get (s : Storage) (name : String) : Outcome (String × Option Err) :=
  withLock s fun s1 => .ret (getBody s1 name).1 (getBody s1 name).2

/-- Lines 209-219 of `Subscribe`: make a channel and put it at the tail of the
waitlist of `name`. Returns the new channel. -/
def register (s : Storage) (name : String) : Chan × Storage :=
  let c := s.fresh
  let s1 := { s with chans := Function.update s.chans c .idle, fresh := s.fresh + 1 }
  match s1.ch name with
  | some channels => (c, { s1 with ch := Function.update s1.ch name (some (channels ++ [c])) })
  | none => (c, { s1 with ch := Function.update s1.ch name (some [c]) })

/-- The deferred `close(ch)`. -/
def close (s : Storage) (c : Chan) : Storage :=
  { s with chans := Function.update s.chans c .closed }

/-- The goroutine enters the `select` of line 224 and waits on `c`. -/
def park (s : Storage) (c : Chan) : Storage :=
  { s with chans := Function.update s.chans c .parked }

/-- Lines 209-230 of `Subscribe`, with the deferred `close(ch)`: register a
waiter, then wait for `ctx.Done()` or for a value. The caller holds the mutex
all along, so no `Add` can reach the send of line 165 meanwhile: the receive
case of the `select` is never ready, and the wait ends only through
`ctx.Done()`. -/
def waitBody (s : Storage) (ctx : Context) (name : String) : Outcome String :=
  let r := register s name
  if ctx.done then .ret "" (close r.2 r.1)
  else .block (park r.2 r.1)

/-- Method `Storage.Subscribe`: it locks the mutex and then calls `s.Get`,
which locks the same mutex again. -/
def Subscribe (s : Storage) (ctx : Context) (name : String) : Outcome String :=
  withLock s fun s1 =>
    match Get s1 name with
    | .block s2 => .block s2
    | .panic s2 => .panic s2
    | .ret (val, none) s2 => .ret val s2
    | .ret (_, some _) s2 => waitBody s2 ctx name

/-- A call made by a client of the store. -/
inductive Call where
  | add (name value : String)
  | get (name : String)
  | subscribe (ctx : Context) (name : String)

/-- State after one call, whatever its outcome. -/
def call (s : Storage) : Call → Storage
  | .add name value => (Add s name value).state
  | .get name => (Get s name).state
  | .subscribe ctx name => (Subscribe s ctx name).state

/-- State after a sequence of calls, each made after the previous one has
returned, panicked or got stuck. -/
def run (s : Storage) (cs : List Call) : Storage :=
  cs.foldl call s

/-- The calls `Add(name, v1)`, ..., `Add(name, vn)` in a row; `none` when one of
them does not return. -/
def addAll (s : Storage) (name : String) : List String → Option Storage
  | [] => some s
  | v :: vs =>
    match Add s name v with
    | .ret _ s1 => addAll s1 name vs
    | _ => none

/-- The call `Get(name)` made `n` times in a row: the results in order and the
final state; `none` when one of the calls does not return. -/
def getN (s : Storage) (name : String) : Nat → Option (List (String × Option Err) × Storage)
  | 0 => some ([], s)
  | n + 1 =>
    match Get s name with
    | .ret r s1 =>
      match getN s1 name n with
      | some (rs, s2) => some (r :: rs, s2)
      | none => none
    | _ => none

/-- The backlog of `name` is absent or empty. -/
def noBacklog (s : Storage) (name : String) : Prop :=
  s.repo name = none ∨ s.repo name = some []

/-- The waitlist of `name` is absent or empty. -/
def noWaiters (s : Storage) (name : String) : Prop :=
  s.ch name = none ∨ s.ch name = some []

/-! ### Store-level steps

The critical sections of the three methods and the steps of a waiting
`Subscribe` call, each as one step on the state, in any interleaving: the
mutex is a pair of steps of its own and is not enforced. Every run of calls is
such a run of steps (`call_is_steps`), so what holds after every run of steps
holds after every run of calls. -/

/-- A store-level step. -/
inductive Ev where
  /-- The call `s.Lock()` succeeds. -/
  | lock
  /-- The deferred `s.Unlock()`. -/
  | unlock
  /-- Lines 156-177: `Add` sends to the oldest waiter or buffers. -/
  | add (name value : String)
  /-- Lines 185-195: `Get` takes the head of the backlog. -/
  | get (name : String)
  /-- Lines 203-224 of `Subscribe`: the immediate take, and when it finds nothing
  the registration of a new waiter, which then waits in the `select`. -/
  | subscribe (name : String)
  /-- Lines 225-226 for the waiter on `c`: its context is done, it returns the
  empty string, the deferred `close(ch)` runs. -/
  | timeout (c : Chan)
  /-- Lines 227-228 for the waiter on `c`: it returns the value it got, the
  deferred `close(ch)` runs. -/
  | receive (c : Chan)

/-- State after one store-level step. -/
def step (s : Storage) : Ev → Storage
  | .lock => { s with locked := true }
  | .unlock => { s with locked := false }
  | .add name value => (addBody s name value).state
  | .get name => (getBody s name).2
  | .subscribe name =>
    match (getBody s name).1.2 with
    | none => (getBody s name).2
    | some _ => park (register s name).2 (register s name).1
  | .timeout c =>
    match s.chans c with
    | .parked => close s c
    | _ => s
  | .receive c =>
    match s.chans c with
    | .got _ => close s c
    | _ => s

/-- State after a sequence of store-level steps. -/
def steps (s : Storage) (evs : List Ev) : Storage :=
  evs.foldl step s

/-- The send of line 165 that a step reaches, if any: the channel and the
value. -/
def sendOf (s : Storage) : Ev → Option (Chan × String)
  | .add name value =>
    match s.ch name with
    | some (c :: _) => some (c, value)
    | _ => none
  | _ => none

/-- All sends of line 165 reached in a run of steps, in order. -/
def sends (s : Storage) : List Ev → List (Chan × String)
  | [] => []
  | e :: es => (sendOf s e).toList ++ sends (step s e) es

/-- No key has both a non-empty backlog and a non-empty waitlist. -/
def backlogOrWaiters (s : Storage) : Prop :=
  ∀ k, noBacklog s k ∨ noWaiters s k

/-- The waitlist of `name`, empty when the key is absent from the map. -/
def waiters (s : Storage) (name : String) : List Chan :=
  (s.ch name).getD []

/-- Every channel occurs at most once in the waitlists: no waitlist holds a
channel twice, and no two waitlists share a channel. -/
def waitersOnce (s : Storage) : Prop :=
  (∀ k, (waiters s k).Nodup) ∧
  (∀ k1 k2, k1 ≠ k2 → ∀ c ∈ waiters s k1, c ∉ waiters s k2)

/-- The channel `c` is in no waitlist. -/
def unlisted (s : Storage) (c : Chan) : Prop :=
  ∀ k, c ∉ waiters s k

/-- The waitlists are in order for the channels `used` so far by sends: every
channel occurs at most once in the waitlists, every listed channel was made
before (it is below the counter), and the used channels are pairwise distinct,
were made before, and are in no waitlist any more. -/
def Good (s : Storage) (used : List Chan) : Prop :=
  waitersOnce s ∧ (∀ k, ∀ c ∈ waiters s k, c < s.fresh) ∧
  used.Nodup ∧ ∀ c ∈ used, c < s.fresh ∧ unlisted s c

/-! ### What a caller sees -/

/-- Result of a call without the state: returned a value, never returns, or
panicked. -/
inductive Res (α : Type) where
  | ret (a : α)
  | block
  | panic
deriving DecidableEq, Repr

/-- The result of an outcome. -/
def Outcome.res {α : Type} : Outcome α → Res α
  | .ret a _ => .ret a
  | .block _ => .block
  | .panic _ => .panic

/-- What the caller of a call sees. -/
inductive Reply where
  | add (r : Res Unit)
  | get (r : Res (String × Option Err))
  | subscribe (r : Res String)
deriving DecidableEq, Repr

/-- What the caller of `c` sees on the store `s`. -/
def reply (s : Storage) : Call → Reply
  | .add name value => .add (Add s name value).res
  | .get name => .get (Get s name).res
  | .subscribe ctx name => .subscribe (Subscribe s ctx name).res

/-- What the callers of a sequence of calls see, in order. -/
def replies (s : Storage) : List Call → List Reply
  | [] => []
  | c :: cs => reply s c :: replies (call s c) cs

/-- Two map entries that differ at most in that one is absent and the other is
present and empty. -/
def sameSeq {α : Type} (x y : Option (List α)) : Prop :=
  x = y ∨ (x = none ∧ y = some []) ∨ (x = some [] ∧ y = none)

/-- Two stores that differ at most in that some keys are absent from a map in
one and mapped to an empty sequence in the other. -/
def Similar (s t : Storage) : Prop :=
  (∀ k, sameSeq (s.repo k) (t.repo k)) ∧ (∀ k, sameSeq (s.ch k) (t.ch k)) ∧
  s.locked = t.locked ∧ s.chans = t.chans ∧ s.fresh = t.fresh


/-- A new store in which the keys "a" and "b" are present with an empty backlog
and "a" is present with an empty waitlist. -/
def emptyEntries : Storage :=
  { NewStorage with
    repo := fun k => if k = "a" ∨ k = "b" then some [] else none
    ch := fun k => if k = "a" then some [] else none }


/-! ### The HTTP handler -/

/-- The call `strings.Split(s, "/")` on the characters of `s`: the pieces
between the slashes, one more than there are slashes. -/
def splitSlash : List Char → List (List Char)
  | [] => [[]]
  | c :: cs =>
    if c = '/' then [] :: splitSlash cs
    else
      match splitSlash cs with
      | [] => [[c]]
      | p :: ps => (c :: p) :: ps

/-- The call `strings.Split(s, "/")`. -/
def Split (s : String) : List String :=
  (splitSlash s.data).map String.mk

/-- Function `path` (lines 116-123): the pieces after the first one; the error
"bad request" unless there is exactly one. The result is the Go pair of a
string and an error, `none` for the nil error. -/
def path (URLPath : String) : String × Option String :=
  match (Split URLPath).drop 1 with
  | [p] => (p, none)
  | _ => ("", some "bad request")

/-- Value of a non-empty string of decimal digits. -/
def digitsValue (cs : List Char) : Option Nat :=
  if cs = [] ∨ ¬ cs.all Char.isDigit then none
  else some (cs.foldl (fun n c => 10 * n + (c.toNat - 48)) 0)

/-- Function `strconv.Atoi` for a 64-bit `int`: an optional sign, then decimal
digits; an error for anything else and for a value out of range. -/
def Atoi (s : String) : Option Int :=
  let v : Option Int :=
    match s.data with
    | '-' :: cs => (digitsValue cs).map fun n => -(n : Int)
    | '+' :: cs => (digitsValue cs).map fun n => (n : Int)
    | cs => (digitsValue cs).map fun n => (n : Int)
  match v with
  | some i => if -(2 : Int) ^ 63 ≤ i ∧ i < (2 : Int) ^ 63 then some i else none
  | none => none

/-- The request method, as far as the handler tells methods apart. -/
inductive Method where
  | GET
  | PUT
  | other
deriving DecidableEq, Repr

/-- What the handler reads of a `*http.Request`. -/
structure Request where
  /-- The field `r.Method`. -/
  method : Method
  /-- The field `r.URL.Path`. -/
  urlPath : String
  /-- The value `r.URL.Query().Get("timeout")`, empty when the parameter is
  missing. -/
  timeout : String
  /-- The value `r.URL.Query().Get("v")`, empty when the parameter is missing. -/
  v : String

/-- What the handler writes: the status code and the body. -/
structure Response where
  status : Nat
  body : String
deriving DecidableEq, Repr

/-- Method `Handlers.handle` (lines 43-113) on the store `s`. The outcome is
the response written, or no response when a store call never returns or
panics. -/
def handle (s : Storage) (r : Request) : Outcome Response :=
  match r.method with
  | .GET =>
    match path r.urlPath with
    | (_, some _) => .ret ⟨400, ""⟩ s
    | (key, none) =>
      if r.timeout ≠ "" then
        match Atoi r.timeout with
        | none => .ret ⟨400, ""⟩ s
        | some t =>
          match Subscribe s (.withTimeout t) key with
          | .ret value s1 =>
            if value = "" then .ret ⟨404, ""⟩ s1 else .ret ⟨200, value⟩ s1
          | .block s1 => .block s1
          | .panic s1 => .panic s1
      else
        match Get s key with
        | .ret (value, err) s1 =>
          if err = some .ErrNotFound then .ret ⟨404, ""⟩ s1 else .ret ⟨200, value⟩ s1
        | .block s1 => .block s1
        | .panic s1 => .panic s1
  | .PUT =>
    match path r.urlPath with
    | (_, some _) => .ret ⟨400, ""⟩ s
    | (key, none) =>
      if r.v = "" then .ret ⟨400, ""⟩ s
      else
        match Add s key r.v with
        | .ret _ s1 => .ret ⟨200, ""⟩ s1
        | .block s1 => .block s1
        | .panic s1 => .panic s1
  | .other => .ret ⟨501, ""⟩ s

/-- State after a sequence of requests, each handled on the state the previous
one left, whether it was answered or not. -/
def serve (s : Storage) (rs : List Request) : Storage :=
  rs.foldl (fun s1 r => (handle s1 r).state) s

/-- Every value in a backlog and every value a waiter has got is a non-empty
string. -/
def valuesNonEmpty (s : Storage) : Prop :=
  (∀ k l, s.repo k = some l → "" ∉ l) ∧ (∀ c v, s.chans c = .got v → v ≠ "")


/-- The responses to a sequence of requests, each handled on the state the
previous one left; `none` for a request that gets no response. -/
def answers (s : Storage) : List Request → List (Option Response)
  | [] => []
  | r :: rs => (handle s r).result :: answers (handle s r).state rs

end Queue

namespace Queue

/-! ## Basic facts about the lock and the two bodies -/

theorem withLock_free {α : Type} (s : Storage) (body : Storage → Outcome α)
    (hl : s.locked = false) :
    withLock s body =
      match body { s with locked := true } with
      | .ret a s1 => .ret a { s1 with locked := false }
      | .panic s1 => .panic { s1 with locked := false }
      | .block s1 => .block s1 := by
  simp [withLock, hl]

theorem withLock_held {α : Type} (s : Storage) (body : Storage → Outcome α)
    (hl : s.locked = true) : withLock s body = .block s := by
  simp [withLock, hl]

theorem Add_held (s : Storage) (name value : String) (hl : s.locked = true) :
    Add s name value = .block s :=
  withLock_held s _ hl

theorem Get_held (s : Storage) (name : String) (hl : s.locked = true) :
    Get s name = .block s :=
  withLock_held s _ hl

/-- With the mutex free and no waiter on `name`, `Add` appends to the backlog
and changes nothing else. -/
theorem Add_buffers (s : Storage) (name value : String) (hl : s.locked = false)
    (hw : noWaiters s name) :
    Add s name value = .ret ()
      { s with repo := Function.update s.repo name
                 (some ((s.repo name).getD [] ++ [value])) } := by
  obtain ⟨repo, ch, locked, chans, fresh⟩ := s
  simp only at hl
  subst hl
  rcases hw with hw | hw <;> simp only at hw <;>
    cases hr : repo name <;> simp [Add, withLock, addBody, hw, hr]

/-- With the mutex free, `Get` on a non-empty backlog pops its head. -/
theorem Get_pops (s : Storage) (name v : String) (rest : List String)
    (hl : s.locked = false) (hr : s.repo name = some (v :: rest)) :
    Get s name = .ret (v, none)
      { s with repo := Function.update s.repo name (some rest) } := by
  obtain ⟨repo, ch, locked, chans, fresh⟩ := s
  simp only at hl hr
  subst hl
  simp [Get, withLock, getBody, hr]

/-- With the mutex free, `Get` on an absent or empty backlog reports
`ErrNotFound` and leaves the state as it was. -/
theorem Get_empty (s : Storage) (name : String)
    (hl : s.locked = false) (hr : noBacklog s name) :
    Get s name = .ret ("", some .ErrNotFound) s := by
  obtain ⟨repo, ch, locked, chans, fresh⟩ := s
  simp only at hl
  subst hl
  rcases hr with hr | hr <;> simp only at hr <;>
    simp [Get, withLock, getBody, hr]

end Queue

namespace Queue

/-! ## Sequences of `Add` and `Get` on one key -/

/-- A row of `Add` calls on a key without waiters returns every time and
appends the values to the backlog in order. -/
theorem addAll_appends (name : String) (vs : List String) :
    ∀ s : Storage, s.locked = false → noWaiters s name →
      ∃ s1, addAll s name vs = some s1 ∧ s1.locked = false ∧
        (s1.repo name).getD [] = (s.repo name).getD [] ++ vs := by
  induction vs with
  | nil => intro s hl _; exact ⟨s, rfl, hl, by simp⟩
  | cons v vs ih =>
    intro s hl hw
    have hadd := Add_buffers s name v hl hw
    obtain ⟨s1, h1, h2, h3⟩ := ih
      { s with repo := Function.update s.repo name
                 (some ((s.repo name).getD [] ++ [v])) } hl hw
    refine ⟨s1, ?_, h2, ?_⟩
    · simp only [addAll, hadd]; exact h1
    · rw [h3]; simp

/-- A row of `Get` calls, as many as the backlog is long, returns the backlog
in order and leaves it empty. -/
theorem getN_drains (name : String) (vs : List String) :
    ∀ s : Storage, s.locked = false → (s.repo name).getD [] = vs →
      ∃ s2, getN s name vs.length = some (vs.map (fun v => (v, none)), s2) ∧
        s2.locked = false ∧ noBacklog s2 name := by
  induction vs with
  | nil =>
    intro s hl hr
    refine ⟨s, rfl, hl, ?_⟩
    cases h : s.repo name with
    | none => exact Or.inl h
    | some l => rw [h] at hr; simp at hr; subst hr; exact Or.inr h
  | cons v vs ih =>
    intro s hl hr
    have hs : s.repo name = some (v :: vs) := by
      cases h : s.repo name with
      | none => rw [h] at hr; simp at hr
      | some l => rw [h] at hr; simp at hr; rw [hr]
    have hget := Get_pops s name v vs hl hs
    obtain ⟨s2, h1, h2, h3⟩ := ih
      { s with repo := Function.update s.repo name (some vs) } hl (by simp)
    refine ⟨s2, ?_, h2, h3⟩
    simp only [getN, List.length_cons, hget, h1, List.map_cons]

/-- Claim C1. FIFO per key: on a store with the mutex free in which key `K` has
no backlog and no waiters, the calls `Add(K, v1)`, ..., `Add(K, vn)` all return,
the following `n` calls of `Get(K)` return `v1`, ..., `vn` in this order with a
nil error, and one more `Get(K)` returns the empty string with `ErrNotFound`. -/
theorem fifo_per_key (s : Storage) (K : String) (vs : List String)
    (hl : s.locked = false) (hb : noBacklog s K) (hw : noWaiters s K) :
    ∃ s1 s2, addAll s K vs = some s1 ∧
      getN s1 K vs.length = some (vs.map (fun v => (v, none)), s2) ∧
      Get s2 K = .ret ("", some .ErrNotFound) s2 := by
  obtain ⟨s1, h1, hl1, hr1⟩ := addAll_appends K vs s hl hw
  have h0 : (s.repo K).getD [] = [] := by
    rcases hb with hb | hb <;> simp [hb]
  rw [h0, List.nil_append] at hr1
  obtain ⟨s2, h2, hl2, hb2⟩ := getN_drains K vs s1 hl1 hr1
  exact ⟨s1, s2, h1, h2, Get_empty s2 K hl2 hb2⟩

/-- Witness of `fifo_per_key`: a new store, key "a", values "x", "y", "z". -/
theorem fifo_per_key_witness :
    (NewStorage.locked = false ∧ noBacklog NewStorage "a" ∧ noWaiters NewStorage "a") ∧
    ∃ s1 s2, addAll NewStorage "a" ["x", "y", "z"] = some s1 ∧
      getN s1 "a" 3 = some ([("x", none), ("y", none), ("z", none)], s2) ∧
      Get s2 "a" = .ret ("", some .ErrNotFound) s2 :=
  ⟨⟨rfl, Or.inl rfl, Or.inl rfl⟩,
    fifo_per_key NewStorage "a" ["x", "y", "z"] rfl (Or.inl rfl) (Or.inl rfl)⟩

end Queue

namespace Queue

/-! ## Single calls of `Get` and `Add` -/

/-- Claim C3. For every store with the mutex free and every key `K`: `Get(K)`
returns `ErrNotFound` if and only if the backlog of `K` is absent or empty, and
in that case the returned string is empty and the whole store, both maps
included, is as before the call. -/
theorem Get_notFound_iff (s : Storage) (K : String) (hl : s.locked = false) :
    ((∃ val s1, Get s K = .ret (val, some .ErrNotFound) s1) ↔ noBacklog s K) ∧
    (noBacklog s K → Get s K = .ret ("", some .ErrNotFound) s) := by
  refine ⟨⟨?_, fun hb => ⟨"", s, Get_empty s K hl hb⟩⟩, Get_empty s K hl⟩
  rintro ⟨val, s1, h⟩
  cases hr : s.repo K with
  | none => exact Or.inl hr
  | some l =>
    cases l with
    | nil => exact Or.inr hr
    | cons v rest =>
      rw [Get_pops s K v rest hl hr] at h
      simp at h

/-- Witness of `Get_notFound_iff`: a new store and key "a". -/
theorem Get_notFound_iff_witness :
    NewStorage.locked = false ∧
    (((∃ val s1, Get NewStorage "a" = .ret (val, some .ErrNotFound) s1) ↔
        noBacklog NewStorage "a") ∧
      (noBacklog NewStorage "a" →
        Get NewStorage "a" = .ret ("", some .ErrNotFound) NewStorage)) :=
  ⟨rfl, Get_notFound_iff NewStorage "a" rfl⟩

/-- Claim C4. For every store with the mutex free in which the backlog of `K`
is `v :: rest`: `Get(K)` returns `v` with a nil error, the backlog of `K`
becomes `rest`, and nothing else changes, in particular no waitlist. -/
theorem Get_returns_head (s : Storage) (K v : String) (rest : List String)
    (hl : s.locked = false) (hr : s.repo K = some (v :: rest)) :
    ∃ s1, Get s K = .ret (v, none) s1 ∧ s1.repo K = some rest ∧ s1.ch = s.ch ∧
      s1 = { s with repo := Function.update s.repo K (some rest) } :=
  ⟨_, Get_pops s K v rest hl hr, by simp, rfl, rfl⟩

/-- Witness of `Get_returns_head`: the store after `Add("a", "x")` and
`Add("a", "y")` on a new store. -/
theorem Get_returns_head_witness :
    ((run NewStorage [.add "a" "x", .add "a" "y"]).locked = false ∧
      (run NewStorage [.add "a" "x", .add "a" "y"]).repo "a" = some ["x", "y"]) ∧
    ∃ s1, Get (run NewStorage [.add "a" "x", .add "a" "y"]) "a" = .ret ("x", none) s1 ∧
      s1.repo "a" = some ["y"] ∧
      s1.ch = (run NewStorage [.add "a" "x", .add "a" "y"]).ch ∧
      s1 = { run NewStorage [.add "a" "x", .add "a" "y"] with
              repo := Function.update
                (run NewStorage [.add "a" "x", .add "a" "y"]).repo "a" (some ["y"]) } :=
  ⟨⟨by decide, by decide⟩,
    Get_returns_head (run NewStorage [.add "a" "x", .add "a" "y"]) "a" "x" ["y"]
      (by decide) (by decide)⟩

/-- Claim C5. For every store with the mutex free in which the waitlist of `K`
is absent or empty: `Add(K, v)` returns, the backlog of `K` becomes its old
content (empty if absent) followed by `v`, and nothing else changes, in
particular no waitlist. -/
theorem Add_appends_to_backlog (s : Storage) (K v : String)
    (hl : s.locked = false) (hw : noWaiters s K) :
    ∃ s1, Add s K v = .ret () s1 ∧
      s1.repo K = some ((s.repo K).getD [] ++ [v]) ∧ s1.ch = s.ch ∧
      s1 = { s with repo := Function.update s.repo K
                      (some ((s.repo K).getD [] ++ [v])) } :=
  ⟨_, Add_buffers s K v hl hw, by simp, rfl, rfl⟩

/-- Witness of `Add_appends_to_backlog`: `Add("a", "y")` on the store that
holds "x" under "a". -/
theorem Add_appends_to_backlog_witness :
    ((run NewStorage [.add "a" "x"]).locked = false ∧
      noWaiters (run NewStorage [.add "a" "x"]) "a") ∧
    ∃ s1, Add (run NewStorage [.add "a" "x"]) "a" "y" = .ret () s1 ∧
      s1.repo "a" = some (((run NewStorage [.add "a" "x"]).repo "a").getD [] ++ ["y"]) ∧
      s1.ch = (run NewStorage [.add "a" "x"]).ch ∧
      s1 = { run NewStorage [.add "a" "x"] with
              repo := Function.update (run NewStorage [.add "a" "x"]).repo "a"
                (some (((run NewStorage [.add "a" "x"]).repo "a").getD [] ++ ["y"])) } :=
  ⟨⟨by decide, Or.inl (by decide)⟩,
    Add_appends_to_backlog (run NewStorage [.add "a" "x"]) "a" "y"
      (by decide) (Or.inl (by decide))⟩

end Queue

namespace Queue

/-! ## `Subscribe` and the mutex -/

/-- Whatever the store, the context and the key, `Subscribe` ends up waiting
forever with the mutex held and no map changed. -/
theorem Subscribe_eq_block (s : Storage) (ctx : Context) (name : String) :
    Subscribe s ctx name = .block { s with locked := true } := by
  obtain ⟨repo, ch, locked, chans, fresh⟩ := s
  cases locked <;> simp [Subscribe, withLock, Get]

/-- The critical section of `Add` moves no backlog and no waitlist of another
key. -/
theorem addBody_other (s : Storage) (A B v : String) (h : A ≠ B) :
    (addBody s A v).state.repo B = s.repo B ∧ (addBody s A v).state.ch B = s.ch B := by
  have hB : B ≠ A := Ne.symm h
  unfold addBody
  split
  · rename_i c rest _
    unfold send
    dsimp only
    split <;> simp [Outcome.state, Function.update_noteq hB]
  · split <;> simp [Outcome.state, Function.update_noteq hB]

/-- The critical section of `Get` moves no backlog and no waitlist of another
key. -/
theorem getBody_other (s : Storage) (A B : String) (h : A ≠ B) :
    (getBody s A).2.repo B = s.repo B ∧ (getBody s A).2.ch B = s.ch B := by
  have hB : B ≠ A := Ne.symm h
  unfold getBody
  split <;> simp [Function.update_noteq hB]

/-- Registering a waiter moves no backlog and no waitlist of another key. -/
theorem register_other (s : Storage) (A B : String) (h : A ≠ B) :
    (register s A).2.repo B = s.repo B ∧ (register s A).2.ch B = s.ch B := by
  have hB : B ≠ A := Ne.symm h
  unfold register
  dsimp only
  split <;> simp [Function.update_noteq hB]

/-- The lock wrapper changes the maps only through the body. -/
theorem withLock_maps {α : Type} (s : Storage) (body : Storage → Outcome α) :
    (withLock s body).state = s ∨
    ((withLock s body).state.repo = (body { s with locked := true }).state.repo ∧
      (withLock s body).state.ch = (body { s with locked := true }).state.ch) := by
  unfold withLock
  split
  · exact Or.inl rfl
  · right
    split <;> rename_i heq <;> simp [Outcome.state, heq]

/-- Claim C6. Key isolation: for keys `A ≠ B` and every store, the calls
`Add(A, v)`, `Get(A)` and `Subscribe(ctx, A)`, and likewise the store-level
steps of `Subscribe` on `A` (the immediate take, which is the body of `Get`, and
the registration of a waiter), leave the backlog of `B` and the waitlist of `B`
unchanged. -/
theorem key_isolation (s : Storage) (A B v : String) (ctx : Context) (h : A ≠ B) :
    ((Add s A v).state.repo B = s.repo B ∧ (Add s A v).state.ch B = s.ch B) ∧
    ((Get s A).state.repo B = s.repo B ∧ (Get s A).state.ch B = s.ch B) ∧
    ((Subscribe s ctx A).state.repo B = s.repo B ∧
      (Subscribe s ctx A).state.ch B = s.ch B) ∧
    ((getBody s A).2.repo B = s.repo B ∧ (getBody s A).2.ch B = s.ch B) ∧
    ((register s A).2.repo B = s.repo B ∧ (register s A).2.ch B = s.ch B) ∧
    ((waitBody s ctx A).state.repo B = s.repo B ∧
      (waitBody s ctx A).state.ch B = s.ch B) := by
  refine ⟨?_, ?_, ?_, getBody_other s A B h, register_other s A B h, ?_⟩
  · rcases withLock_maps s (fun s1 => addBody s1 A v) with h1 | ⟨h1, h2⟩
    · unfold Add; rw [h1]; exact ⟨rfl, rfl⟩
    · unfold Add; rw [h1, h2]
      exact addBody_other { s with locked := true } A B v h
  · rcases withLock_maps s
      (fun s1 => Outcome.ret (getBody s1 A).1 (getBody s1 A).2) with h1 | ⟨h1, h2⟩
    · unfold Get; rw [h1]; exact ⟨rfl, rfl⟩
    · unfold Get; rw [h1, h2]
      exact getBody_other { s with locked := true } A B h
  · rw [Subscribe_eq_block]; exact ⟨rfl, rfl⟩
  · have hr := register_other s A B h
    unfold waitBody
    dsimp only
    split <;> simpa [Outcome.state, close, park] using hr

/-- Witness of `key_isolation`: keys "a" and "b" on the store that holds "x"
under "b". -/
theorem key_isolation_witness :
    ("a" ≠ "b") ∧
    (Add (run NewStorage [.add "b" "x"]) "a" "v").state.repo "b" = some ["x"] ∧
    (Get (run NewStorage [.add "b" "x"]) "a").state.repo "b" = some ["x"] ∧
    (register (run NewStorage [.add "b" "x"]) "a").2.ch "b" = none :=
  have h := key_isolation (run NewStorage [.add "b" "x"]) "a" "b" "v"
    (.withTimeout 1) (by decide)
  ⟨by decide, h.1.1.trans (by decide), h.2.1.1.trans (by decide),
    h.2.2.2.2.1.2.trans (by decide)⟩

end Queue

namespace Queue

/-! ## Waiters: handoff, expiry, and the calls that never return -/

/-- On a store with the mutex free whose oldest waiter on `name` waits in its
`select`, `Add` hands the value to that waiter, pops it from the waitlist and
touches no backlog. -/
theorem Add_hands_over (s : Storage) (name value : String) (w : Chan) (ws : List Chan)
    (hl : s.locked = false) (hw : s.ch name = some (w :: ws))
    (hp : s.chans w = .parked) :
    Add s name value = .ret ()
      { s with ch := Function.update s.ch name (some ws)
               chans := Function.update s.chans w (.got value) } := by
  obtain ⟨repo, ch, locked, chans, fresh⟩ := s
  simp only at hl hw hp
  subst hl
  simp [Add, withLock, addBody, send, hw, hp]

/-- Claim C2. Handoff precedence: on every store with the mutex free in which
the waitlist of `K` is `w :: ws` and `w` is a waiter, that is a channel whose
consumer waits on it in its `select`, the call `Add(K, v)` returns, `w` has got
`v`, the waitlist of `K` is `ws` (exactly `w` is removed, from the head), every
backlog and every other waitlist and channel is as before, and when the backlog
of `K` was absent or empty a `Get(K)` right after returns the empty string with
`ErrNotFound`: the value was not buffered. -/
theorem handoff_precedence (s : Storage) (K v : String) (w : Chan) (ws : List Chan)
    (hl : s.locked = false) (hw : s.ch K = some (w :: ws)) (hp : s.chans w = .parked) :
    ∃ s1, Add s K v = .ret () s1 ∧
      s1.chans w = .got v ∧ s1.ch K = some ws ∧ s1.repo = s.repo ∧
      (∀ k, k ≠ K → s1.ch k = s.ch k) ∧ (∀ c, c ≠ w → s1.chans c = s.chans c) ∧
      s1 = { s with ch := Function.update s.ch K (some ws)
                    chans := Function.update s.chans w (.got v) } ∧
      (noBacklog s K → Get s1 K = .ret ("", some .ErrNotFound) s1) := by
  refine ⟨_, Add_hands_over s K v w ws hl hw hp, by simp, by simp, rfl,
    fun k hk => by simp [Function.update_noteq hk],
    fun c hc => by simp [Function.update_noteq hc], rfl, fun hb => ?_⟩
  exact Get_empty _ K hl hb

/-- Witness of `handoff_precedence`: the store in which one consumer waits on
key "a" (a new store after the store-level step of `Subscribe` on "a"), and
`Add("a", "x")`. -/
theorem handoff_precedence_witness :
    ((steps NewStorage [.subscribe "a"]).locked = false ∧
      (steps NewStorage [.subscribe "a"]).ch "a" = some [0] ∧
      (steps NewStorage [.subscribe "a"]).chans 0 = .parked) ∧
    ∃ s1, Add (steps NewStorage [.subscribe "a"]) "a" "x" = .ret () s1 ∧
      s1.chans 0 = .got "x" ∧ s1.ch "a" = some [] ∧
      s1.repo = (steps NewStorage [.subscribe "a"]).repo ∧
      (∀ k, k ≠ "a" → s1.ch k = (steps NewStorage [.subscribe "a"]).ch k) ∧
      (∀ c, c ≠ 0 → s1.chans c = (steps NewStorage [.subscribe "a"]).chans c) ∧
      s1 = { steps NewStorage [.subscribe "a"] with
              ch := Function.update (steps NewStorage [.subscribe "a"]).ch "a" (some [])
              chans := Function.update (steps NewStorage [.subscribe "a"]).chans 0
                (.got "x") } ∧
      (noBacklog (steps NewStorage [.subscribe "a"]) "a" →
        Get s1 "a" = .ret ("", some .ErrNotFound) s1) :=
  ⟨⟨by decide, by decide, by decide⟩,
    handoff_precedence (steps NewStorage [.subscribe "a"]) "a" "x" 0 []
      (by decide) (by decide) (by decide)⟩

/-- Evaluation for claim C7. On the store that holds "y" under "a", with the
mutex free, `Subscribe(ctx, "a")` returns nothing for any context: it waits
forever at the lock inside `Get`, "y" stays at the head of the backlog, and no
waiter is registered. The claim says it returns "y" and removes it. -/
theorem Subscribe_on_backlog_blocks :
    (run NewStorage [.add "a" "y"]).locked = false ∧
    (run NewStorage [.add "a" "y"]).repo "a" = some ["y"] ∧
    ∀ ctx : Context,
      (Subscribe (run NewStorage [.add "a" "y"]) ctx "a").result = none ∧
      (Subscribe (run NewStorage [.add "a" "y"]) ctx "a").blocked = true ∧
      (Subscribe (run NewStorage [.add "a" "y"]) ctx "a").state.repo "a" = some ["y"] ∧
      (Subscribe (run NewStorage [.add "a" "y"]) ctx "a").state.ch "a" = none ∧
      (Subscribe (run NewStorage [.add "a" "y"]) ctx "a").state.locked = true := by
  refine ⟨by decide, by decide, fun ctx => ?_⟩
  rw [Subscribe_eq_block]
  exact ⟨rfl, rfl, by decide, by decide, rfl⟩

/-- Evaluation for claim C8. For every store, context and key, `Subscribe`
never returns: after `s.Lock()` its call of `Get` waits at `s.Lock()` for the
mutex that `Subscribe` itself holds. The call ends up waiting forever with the
mutex held, whether or not the context is done, and it returns no value. The
claim says that `Subscribe` always returns. -/
theorem Subscribe_never_returns (s : Storage) (ctx : Context) (name : String) :
    Get { s with locked := true } name = .block { s with locked := true } ∧
    Subscribe s ctx name = .block { s with locked := true } ∧
    (Subscribe s ctx name).result = none ∧
    (Subscribe s ctx name).state.locked = true := by
  refine ⟨Get_held _ name rfl, Subscribe_eq_block s ctx name, ?_, ?_⟩ <;>
    rw [Subscribe_eq_block] <;> rfl

/-- Evaluation for claim C9. The claim says that a `Subscribe` that finds
nothing returns the empty result when its context is done, with its waiter
removed, so that a later `Add(K, v)` buffers `v` and a following `Get(K)`
returns `v`. For every store, context and key the call `Subscribe(ctx, K)`
returns nothing, also when the context is done: it is stuck at the lock inside
`Get`. The `Add(K, v)` after it waits for the mutex and buffers nothing, and the
`Get(K)` after that returns nothing either; so it is for `Subscribe` with a
context of one second on key "a" of a new store, `Add("a", "x")`, `Get("a")`.
The lines of the expiry path themselves (209-230) return the empty string and
close the channel without taking it out of the waitlist. -/
theorem expiry_never_completes :
    (∀ (s : Storage) (ctx : Context) (K v : String),
      (Subscribe s ctx K).result = none ∧
      (Add (Subscribe s ctx K).state K v).blocked = true ∧
      (Add (Subscribe s ctx K).state K v).state.repo = s.repo ∧
      (Get (Add (Subscribe s ctx K).state K v).state K).result = none) ∧
    ((Subscribe NewStorage (.withTimeout 1) "a").result = none ∧
      (run NewStorage [.subscribe (.withTimeout 1) "a", .add "a" "x"]).repo "a" = none ∧
      (Get (run NewStorage [.subscribe (.withTimeout 1) "a", .add "a" "x"]) "a").result
        = none) ∧
    (∀ (s : Storage) (t : Int) (name : String),
      (waitBody s (.withTimeout t) name).result = some "" ∧
      s.fresh ∈ ((waitBody s (.withTimeout t) name).state.ch name).getD [] ∧
      (waitBody s (.withTimeout t) name).state.chans s.fresh = .closed) := by
  refine ⟨fun s ctx K v => ?_, by decide, fun s t name => ?_⟩
  · rw [Subscribe_eq_block]
    simp only [Outcome.state, Outcome.result, true_and]
    rw [Add_held _ K v rfl]
    simp only [Outcome.state, Outcome.blocked, true_and]
    rw [Get_held _ K rfl]
  · cases h : s.ch name <;>
      simp [waitBody, register, Context.done, Outcome.result, Outcome.state, close, h]

/-- Evaluation for claim C10. After a `Subscribe` call on any store, every
`Add` waits forever for the mutex, so it does not complete; this is so after
the single call `Subscribe(ctx, "a")` on a new store. And on the store that the
expiry path of `Subscribe` leaves (a new store after the store-level steps of
`Subscribe` on "a" and of the timeout of its channel 0), `Add("a", "x")` panics:
it sends on the closed channel of the waiter that timed out. The claim says
`Add` completes normally in every reachable store. -/
theorem Add_does_not_complete :
    (∀ (s : Storage) (ctx : Context) (name K v : String),
      Add (Subscribe s ctx name).state K v = .block (Subscribe s ctx name).state) ∧
    (Add (run NewStorage [.subscribe (.withTimeout 1) "a"]) "a" "x").blocked = true ∧
    (Add (run NewStorage [.subscribe (.withTimeout 1) "a"]) "a" "x").result = none ∧
    ((steps NewStorage [.subscribe "a", .timeout 0]).chans 0 = .closed ∧
      (Add (steps NewStorage [.subscribe "a", .timeout 0]) "a" "x").panicked = true ∧
      (Add (steps NewStorage [.subscribe "a", .timeout 0]) "a" "x").result = none) := by
  refine ⟨fun s ctx name K v => ?_, by decide, by decide, by decide⟩
  rw [Subscribe_eq_block]
  exact Add_held _ K v rfl

end Queue

namespace Queue

/-! ## Store-level steps: what the critical sections do to the maps -/

/-- When `name` has a waiter, the critical section of `Add` pops the oldest one
and leaves the backlogs and the channel counter alone. -/
theorem addBody_pops (s : Storage) (name value : String) (c : Chan) (rest : List Chan)
    (h : s.ch name = some (c :: rest)) :
    (addBody s name value).state.repo = s.repo ∧
    (addBody s name value).state.ch = Function.update s.ch name (some rest) ∧
    (addBody s name value).state.fresh = s.fresh := by
  unfold addBody
  rw [h]
  unfold send
  dsimp only
  split <;> simp [Outcome.state]

/-- When `name` has no waiter, the critical section of `Add` appends to the
backlog and changes nothing else. -/
theorem addBody_buffers (s : Storage) (name value : String) (h : noWaiters s name) :
    (addBody s name value).state =
      { s with repo := Function.update s.repo name
                 (some ((s.repo name).getD [] ++ [value])) } := by
  unfold addBody
  rcases h with h | h <;> rw [h] <;> cases hr : s.repo name <;> simp [Outcome.state]

/-- The critical section of `Get` either changes nothing and reports
`ErrNotFound`, with the backlog absent or empty, or pops the head of a
non-empty backlog. -/
theorem getBody_cases (s : Storage) (name : String) :
    (noBacklog s name ∧ getBody s name = (("", some .ErrNotFound), s)) ∨
    (∃ v rest, s.repo name = some (v :: rest) ∧
      getBody s name =
        ((v, none), { s with repo := Function.update s.repo name (some rest) })) := by
  unfold getBody
  cases hr : s.repo name with
  | none => left; exact ⟨Or.inl hr, rfl⟩
  | some l =>
    cases l with
    | nil => left; exact ⟨Or.inr hr, rfl⟩
    | cons v rest => right; exact ⟨v, rest, rfl, rfl⟩

/-- Registration puts the new channel at the tail of the waitlist of `name` and
leaves the backlogs alone. -/
theorem register_tail (s : Storage) (name : String) :
    (register s name).1 = s.fresh ∧
    (register s name).2.repo = s.repo ∧
    (register s name).2.ch =
      Function.update s.ch name (some ((s.ch name).getD [] ++ [s.fresh])) ∧
    (register s name).2.fresh = s.fresh + 1 := by
  unfold register
  dsimp only
  cases h : s.ch name <;> simp

end Queue

namespace Queue

/-! ## Backlog and waitlist of one key are never both non-empty -/

theorem noBacklog_congr {s t : Storage} {k : String} (h : t.repo k = s.repo k) :
    noBacklog t k ↔ noBacklog s k := by
  unfold noBacklog; rw [h]

theorem noWaiters_congr {s t : Storage} {k : String} (h : t.ch k = s.ch k) :
    noWaiters t k ↔ noWaiters s k := by
  unfold noWaiters; rw [h]

/-- A step that leaves both maps alone keeps the invariant. -/
theorem backlogOrWaiters_of_maps {s t : Storage} (hr : t.repo = s.repo) (hc : t.ch = s.ch)
    (h : backlogOrWaiters s) : backlogOrWaiters t := by
  intro k
  rcases h k with h1 | h1
  · exact Or.inl ((noBacklog_congr (congrFun hr k)).2 h1)
  · exact Or.inr ((noWaiters_congr (congrFun hc k)).2 h1)

/-- The critical section of `Add` keeps the invariant. -/
theorem addBody_backlogOrWaiters (s : Storage) (name value : String)
    (h : backlogOrWaiters s) : backlogOrWaiters (addBody s name value).state := by
  intro k
  by_cases hw : noWaiters s name
  · rw [addBody_buffers s name value hw]
    by_cases hk : k = name
    · subst hk; exact Or.inr hw
    · rcases h k with h1 | h1
      · left; unfold noBacklog at *; simpa [Function.update_noteq hk] using h1
      · exact Or.inr h1
  · obtain ⟨c, rest, hch⟩ : ∃ c rest, s.ch name = some (c :: rest) := by
      cases hc : s.ch name with
      | none => exact absurd (Or.inl hc) hw
      | some l =>
        cases l with
        | nil => exact absurd (Or.inr hc) hw
        | cons c rest => exact ⟨c, rest, rfl⟩
    obtain ⟨hr, hc, _⟩ := addBody_pops s name value c rest hch
    by_cases hk : k = name
    · subst hk
      rcases h k with h1 | h1
      · exact Or.inl ((noBacklog_congr (congrFun hr k)).2 h1)
      · exact absurd h1 hw
    · have hck : (addBody s name value).state.ch k = s.ch k := by
        rw [hc]; exact Function.update_noteq hk _ _
      rcases h k with h1 | h1
      · exact Or.inl ((noBacklog_congr (congrFun hr k)).2 h1)
      · exact Or.inr ((noWaiters_congr hck).2 h1)

/-- The critical section of `Get` keeps the invariant. -/
theorem getBody_backlogOrWaiters (s : Storage) (name : String)
    (h : backlogOrWaiters s) : backlogOrWaiters (getBody s name).2 := by
  rcases getBody_cases s name with ⟨_, he⟩ | ⟨v, rest, hr, he⟩
  · rw [he]; exact h
  · rw [he]
    intro k
    by_cases hk : k = name
    · subst hk
      rcases h k with h1 | h1
      · rcases h1 with h1 | h1 <;> rw [hr] at h1 <;> simp at h1
      · exact Or.inr h1
    · rcases h k with h1 | h1
      · left; unfold noBacklog at *; simpa [Function.update_noteq hk] using h1
      · exact Or.inr h1

/-- Every store-level step keeps the invariant. -/
theorem step_backlogOrWaiters (s : Storage) (e : Ev) (h : backlogOrWaiters s) :
    backlogOrWaiters (step s e) := by
  cases e with
  | lock => exact backlogOrWaiters_of_maps rfl rfl h
  | unlock => exact backlogOrWaiters_of_maps rfl rfl h
  | add name value => exact addBody_backlogOrWaiters s name value h
  | get name => exact getBody_backlogOrWaiters s name h
  | subscribe name =>
    rcases getBody_cases s name with ⟨hb, he⟩ | ⟨v, rest, hr, he⟩
    · obtain ⟨_, hrr, hrc, _⟩ := register_tail s name
      have hstep : step s (.subscribe name) =
          park (register s name).2 (register s name).1 := by
        simp [step, he]
      rw [hstep]
      intro k
      by_cases hk : k = name
      · subst hk
        left
        exact (noBacklog_congr (t := park (register s k).2 (register s k).1)
          (congrFun hrr k)).2 hb
      · have hck : (park (register s name).2 (register s name).1).ch k = s.ch k := by
          show (register s name).2.ch k = s.ch k
          rw [hrc]; exact Function.update_noteq hk _ _
        rcases h k with h1 | h1
        · exact Or.inl ((noBacklog_congr
            (t := park (register s name).2 (register s name).1) (congrFun hrr k)).2 h1)
        · exact Or.inr ((noWaiters_congr hck).2 h1)
    · have hstep : step s (.subscribe name) = (getBody s name).2 := by
        simp [step, he]
      rw [hstep]
      exact getBody_backlogOrWaiters s name h
  | timeout c =>
    have : (step s (.timeout c)).repo = s.repo ∧ (step s (.timeout c)).ch = s.ch := by
      simp only [step]; split <;> simp [close]
    exact backlogOrWaiters_of_maps this.1 this.2 h
  | receive c =>
    have : (step s (.receive c)).repo = s.repo ∧ (step s (.receive c)).ch = s.ch := by
      simp only [step]; split <;> simp [close]
    exact backlogOrWaiters_of_maps this.1 this.2 h

/-- Every run of store-level steps keeps the invariant. -/
theorem steps_backlogOrWaiters (evs : List Ev) :
    ∀ s : Storage, backlogOrWaiters s → backlogOrWaiters (steps s evs) := by
  induction evs with
  | nil => intro s h; exact h
  | cons e es ih => intro s h; exact ih (step s e) (step_backlogOrWaiters s e h)

end Queue

namespace Queue

/-! ## Runs of calls are runs of store-level steps -/

theorem steps_append (s : Storage) (xs ys : List Ev) :
    steps s (xs ++ ys) = steps (steps s xs) ys := by
  simp [steps, List.foldl_append]

/-- Every call is a short run of store-level steps: the lock, the critical
section and the unlock, or less when the call gets stuck. -/
theorem call_is_steps (s : Storage) (c : Call) : ∃ evs, call s c = steps s evs := by
  cases c with
  | add name value =>
    cases hl : s.locked with
    | true => exact ⟨[], by simp [call, Add, withLock, hl, steps, Outcome.state]⟩
    | false =>
      cases hb : addBody { s with locked := true } name value with
      | ret a s1 =>
        exact ⟨[.lock, .add name value, .unlock],
          by simp [call, Add, withLock, hl, steps, step, hb, Outcome.state]⟩
      | panic s1 =>
        exact ⟨[.lock, .add name value, .unlock],
          by simp [call, Add, withLock, hl, steps, step, hb, Outcome.state]⟩
      | block s1 =>
        exact ⟨[.lock, .add name value],
          by simp [call, Add, withLock, hl, steps, step, hb, Outcome.state]⟩
  | get name =>
    cases hl : s.locked with
    | true => exact ⟨[], by simp [call, Get, withLock, hl, steps, Outcome.state]⟩
    | false =>
      exact ⟨[.lock, .get name, .unlock],
        by simp [call, Get, withLock, hl, steps, step, Outcome.state]⟩
  | subscribe ctx name =>
    exact ⟨[.lock], by simp [call, Subscribe_eq_block, steps, step, Outcome.state]⟩

/-- Every run of calls is a run of store-level steps. -/
theorem run_is_steps (cs : List Call) : ∀ s : Storage, ∃ evs, run s cs = steps s evs := by
  induction cs with
  | nil => intro s; exact ⟨[], rfl⟩
  | cons c cs ih =>
    intro s
    obtain ⟨e1, h1⟩ := call_is_steps s c
    obtain ⟨e2, h2⟩ := ih (call s c)
    refine ⟨e1 ++ e2, ?_⟩
    rw [steps_append, ← h1, ← h2]
    rfl

/-- Claim C19. In every store reached from `NewStorage` by store-level steps
(the critical sections of `Add` and `Get`, the immediate take or the
registration of `Subscribe`, the send of `Add` to a waiter, the timeout or the
return of a waiter, in any interleaving), and so in every store reached by any
sequence of `Add`, `Get` and `Subscribe` calls, no key has both a non-empty
backlog and a non-empty waitlist. -/
theorem backlog_and_waitlist_exclusive :
    (∀ (evs : List Ev) (k : String),
      noBacklog (steps NewStorage evs) k ∨ noWaiters (steps NewStorage evs) k) ∧
    (∀ (cs : List Call) (k : String),
      noBacklog (run NewStorage cs) k ∨ noWaiters (run NewStorage cs) k) := by
  have h0 : backlogOrWaiters NewStorage := fun k => Or.inl (Or.inl rfl)
  refine ⟨fun evs k => steps_backlogOrWaiters evs NewStorage h0 k, fun cs k => ?_⟩
  obtain ⟨evs, h⟩ := run_is_steps cs NewStorage
  rw [h]
  exact steps_backlogOrWaiters evs NewStorage h0 k

end Queue

namespace Queue

/-! ## Every waiter is sent to at most once -/

theorem waiters_congr {s t : Storage} (h : t.ch = s.ch) (k : String) :
    waiters t k = waiters s k := by
  unfold waiters; rw [h]

/-- The condition `Good` looks at the waitlists and the channel counter only. -/
theorem Good_of_eq {s t : Storage} {used : List Chan} (hc : t.ch = s.ch)
    (hf : t.fresh = s.fresh) (h : Good s used) : Good t used := by
  obtain ⟨⟨h1, h2⟩, h3, h4, h5⟩ := h
  refine ⟨⟨fun k => ?_, fun k1 k2 hk c hc1 => ?_⟩, fun k c hc1 => ?_, h4, fun c hc1 => ⟨?_, fun k => ?_⟩⟩
  · rw [waiters_congr hc]; exact h1 k
  · rw [waiters_congr hc] at hc1 ⊢; exact h2 k1 k2 hk c hc1
  · rw [waiters_congr hc] at hc1; rw [hf]; exact h3 k c hc1
  · rw [hf]; exact (h5 c hc1).1
  · rw [waiters_congr hc]; exact (h5 c hc1).2 k

/-- The waitlists after the critical section of `Add` has popped a waiter. -/
theorem waiters_addBody (s : Storage) (name value : String) (c : Chan) (rest : List Chan)
    (h : s.ch name = some (c :: rest)) (k : String) :
    waiters (addBody s name value).state k = if k = name then rest else waiters s k := by
  obtain ⟨_, hc, _⟩ := addBody_pops s name value c rest h
  unfold waiters
  rw [hc]
  by_cases hk : k = name
  · subst hk; simp
  · simp [hk, Function.update_noteq hk]

/-- The waitlists after a registration. -/
theorem waiters_register (s : Storage) (name : String) (k : String) :
    waiters (register s name).2 k =
      if k = name then waiters s name ++ [s.fresh] else waiters s k := by
  obtain ⟨_, _, hc, _⟩ := register_tail s name
  unfold waiters
  rw [hc]
  by_cases hk : k = name
  · subst hk; simp
  · simp [hk, Function.update_noteq hk]

/-- Popping the oldest waiter of `name` for a send keeps the waitlists in
order, with the popped channel added to the used ones. -/
theorem Good_addBody_pop (s : Storage) (name value : String) (c : Chan) (rest : List Chan)
    (used : List Chan) (h : s.ch name = some (c :: rest)) (hg : Good s used) :
    Good (addBody s name value).state (used ++ [c]) := by
  obtain ⟨⟨h1, h2⟩, h3, h4, h5⟩ := hg
  have hw : waiters s name = c :: rest := by unfold waiters; rw [h]; rfl
  have hf : (addBody s name value).state.fresh = s.fresh :=
    (addBody_pops s name value c rest h).2.2
  have hnd : (c :: rest).Nodup := hw ▸ h1 name
  have hsub : ∀ k x, x ∈ waiters (addBody s name value).state k → x ∈ waiters s k := by
    intro k x hx
    rw [waiters_addBody s name value c rest h] at hx
    by_cases hk : k = name
    · subst hk; rw [if_pos rfl] at hx; rw [hw]; exact List.mem_cons_of_mem _ hx
    · rw [if_neg hk] at hx; exact hx
  have hcmem : c ∈ waiters s name := by rw [hw]; exact List.mem_cons_self _ _
  refine ⟨⟨fun k => ?_, fun k1 k2 hk x hx hx2 => ?_⟩, fun k x hx => ?_, ?_, fun x hx => ?_⟩
  · rw [waiters_addBody s name value c rest h]
    by_cases hk : k = name
    · rw [if_pos hk]; exact (List.nodup_cons.1 hnd).2
    · rw [if_neg hk]; exact h1 k
  · exact h2 k1 k2 hk x (hsub k1 x hx) (hsub k2 x hx2)
  · rw [hf]; exact h3 k x (hsub k x hx)
  · rw [List.nodup_append]
    refine ⟨h4, List.nodup_singleton c, ?_⟩
    intro x hx hx2
    rw [List.mem_singleton] at hx2
    subst hx2
    exact (h5 x hx).2 name hcmem
  · rw [List.mem_append, List.mem_singleton] at hx
    rcases hx with hx | hx
    · exact ⟨hf ▸ (h5 x hx).1, fun k hk => (h5 x hx).2 k (hsub k x hk)⟩
    · subst hx
      refine ⟨hf ▸ h3 name x hcmem, fun k hk => ?_⟩
      rw [waiters_addBody s name value x rest h] at hk
      by_cases hkn : k = name
      · rw [if_pos hkn] at hk; exact (List.nodup_cons.1 hnd).1 hk
      · rw [if_neg hkn] at hk; exact h2 name k (Ne.symm hkn) x hcmem hk

/-- Registering a new waiter keeps the waitlists in order. -/
theorem Good_register (s : Storage) (name : String) (used : List Chan) (hg : Good s used) :
    Good (register s name).2 used := by
  obtain ⟨⟨h1, h2⟩, h3, h4, h5⟩ := hg
  have hf : (register s name).2.fresh = s.fresh + 1 := (register_tail s name).2.2.2
  have hmem : ∀ k x, x ∈ waiters (register s name).2 k →
      x ∈ waiters s k ∨ (k = name ∧ x = s.fresh) := by
    intro k x hx
    rw [waiters_register] at hx
    by_cases hk : k = name
    · rw [if_pos hk, List.mem_append, List.mem_singleton] at hx
      rcases hx with hx | hx
      · left; rw [hk]; exact hx
      · right; exact ⟨hk, hx⟩
    · rw [if_neg hk] at hx; exact Or.inl hx
  have hfr : ∀ k, s.fresh ∉ waiters s k := fun k hk => Nat.lt_irrefl _ (h3 k _ hk)
  refine ⟨⟨fun k => ?_, fun k1 k2 hk x hx hx2 => ?_⟩, fun k x hx => ?_, h4, fun x hx => ?_⟩
  · rw [waiters_register]
    by_cases hk : k = name
    · rw [if_pos hk, List.nodup_append]
      refine ⟨h1 name, List.nodup_singleton _, ?_⟩
      intro x hx hx2
      rw [List.mem_singleton] at hx2
      subst hx2
      exact hfr name hx
    · rw [if_neg hk]; exact h1 k
  · rcases hmem k1 x hx with ha | ⟨ha1, ha2⟩ <;> rcases hmem k2 x hx2 with hb | ⟨hb1, hb2⟩
    · exact h2 k1 k2 hk x ha hb
    · subst hb2; exact hfr k1 ha
    · subst ha2; exact hfr k2 hb
    · exact hk (ha1.trans hb1.symm)
  · rw [hf]
    rcases hmem k x hx with ha | ⟨_, ha⟩
    · exact Nat.lt_succ_of_lt (h3 k x ha)
    · rw [ha]; exact Nat.lt_succ_self _
  · refine ⟨hf ▸ Nat.lt_succ_of_lt (h5 x hx).1, fun k hk => ?_⟩
    rcases hmem k x hk with ha | ⟨_, ha⟩
    · exact (h5 x hx).2 k ha
    · exact Nat.lt_irrefl _ (ha ▸ (h5 x hx).1)

end Queue

namespace Queue

/-- Every store-level step keeps the waitlists in order; the channel it sends
to, if any, joins the used ones. -/
theorem step_Good (s : Storage) (e : Ev) (used : List Chan) (hg : Good s used) :
    Good (step s e) (used ++ (sendOf s e).toList.map Prod.fst) := by
  cases e with
  | lock => simpa [sendOf] using Good_of_eq (t := step s .lock) rfl rfl hg
  | unlock => simpa [sendOf] using Good_of_eq (t := step s .unlock) rfl rfl hg
  | add name value =>
    by_cases hw : noWaiters s name
    · have hs : sendOf s (.add name value) = none := by
        rcases hw with hw | hw <;> simp [sendOf, hw]
      have hst : step s (.add name value) =
          { s with repo := Function.update s.repo name
                     (some ((s.repo name).getD [] ++ [value])) } :=
        addBody_buffers s name value hw
      rw [hs, hst]
      simpa using Good_of_eq (s := s) rfl rfl hg
    · obtain ⟨c, rest, hch⟩ : ∃ c rest, s.ch name = some (c :: rest) := by
        cases hc : s.ch name with
        | none => exact absurd (Or.inl hc) hw
        | some l =>
          cases l with
          | nil => exact absurd (Or.inr hc) hw
          | cons c rest => exact ⟨c, rest, rfl⟩
      have hs : sendOf s (.add name value) = some (c, value) := by simp [sendOf, hch]
      rw [hs]
      exact Good_addBody_pop s name value c rest used hch hg
  | get name =>
    have h : (step s (.get name)).ch = s.ch ∧ (step s (.get name)).fresh = s.fresh := by
      rcases getBody_cases s name with ⟨_, he⟩ | ⟨v, rest, _, he⟩ <;> simp [step, he]
    simpa [sendOf] using Good_of_eq h.1 h.2 hg
  | subscribe name =>
    rcases getBody_cases s name with ⟨_, he⟩ | ⟨v, rest, _, he⟩
    · have hst : step s (.subscribe name) =
          park (register s name).2 (register s name).1 := by
        simp [step, he]
      rw [hst]
      simpa [sendOf] using
        Good_of_eq (t := park (register s name).2 (register s name).1) rfl rfl
          (Good_register s name used hg)
    · have h : (step s (.subscribe name)).ch = s.ch ∧
          (step s (.subscribe name)).fresh = s.fresh := by
        simp [step, he]
      simpa [sendOf] using Good_of_eq h.1 h.2 hg
  | timeout c =>
    have h : (step s (.timeout c)).ch = s.ch ∧ (step s (.timeout c)).fresh = s.fresh := by
      simp only [step]; split <;> simp [close]
    simpa [sendOf] using Good_of_eq h.1 h.2 hg
  | receive c =>
    have h : (step s (.receive c)).ch = s.ch ∧ (step s (.receive c)).fresh = s.fresh := by
      simp only [step]; split <;> simp [close]
    simpa [sendOf] using Good_of_eq h.1 h.2 hg

/-- Along every run of store-level steps the waitlists stay in order, with all
the channels sent to in the run among the used ones. -/
theorem steps_Good (evs : List Ev) :
    ∀ (s : Storage) (used : List Chan), Good s used →
      Good (steps s evs) (used ++ (sends s evs).map Prod.fst) := by
  induction evs with
  | nil => intro s used hg; simpa [steps, sends] using hg
  | cons e es ih =>
    intro s used hg
    have h := ih (step s e) _ (step_Good s e used hg)
    simpa [steps, sends, List.append_assoc] using h

theorem Good_NewStorage : Good NewStorage [] := by
  refine ⟨⟨fun k => ?_, fun k1 k2 _ c hc => ?_⟩, fun k c hc => ?_, List.nodup_nil, ?_⟩
  · simp [waiters, NewStorage]
  · simp [waiters, NewStorage] at hc
  · simp [waiters, NewStorage] at hc
  · intro c hc; simp at hc

/-- Claim C12. In every run of store-level steps from `NewStorage` (the
critical sections of `Add` and `Get` and the steps of `Subscribe`, in any
interleaving): every channel occurs at most once in the waitlists; the step of
`Add` that sends a value to a waiter removes that waiter from the waitlists;
a waiter that was sent a value is in no waitlist at any later point of the run;
and no channel is sent to twice in the run. The first part also holds after
every run of `Add`, `Get` and `Subscribe` calls. -/
theorem waiter_served_at_most_once :
    (∀ evs : List Ev, waitersOnce (steps NewStorage evs)) ∧
    (∀ cs : List Call, waitersOnce (run NewStorage cs)) ∧
    (∀ (evs : List Ev) (name value : String) (c : Chan),
      sendOf (steps NewStorage evs) (.add name value) = some (c, value) →
      unlisted (step (steps NewStorage evs) (.add name value)) c) ∧
    (∀ (evs : List Ev), ∀ c ∈ (sends NewStorage evs).map Prod.fst,
      unlisted (steps NewStorage evs) c) ∧
    (∀ evs : List Ev, ((sends NewStorage evs).map Prod.fst).Nodup) := by
  have key : ∀ evs : List Ev,
      Good (steps NewStorage evs) ((sends NewStorage evs).map Prod.fst) := by
    intro evs
    simpa using steps_Good evs NewStorage [] Good_NewStorage
  refine ⟨fun evs => (key evs).1, fun cs => ?_, fun evs name value c hs => ?_,
    fun evs c hc => ((key evs).2.2.2 c hc).2, fun evs => (key evs).2.2.1⟩
  · obtain ⟨evs, h⟩ := run_is_steps cs NewStorage
    rw [h]; exact (key evs).1
  · have h := step_Good (steps NewStorage evs) (.add name value) _ (key evs)
    rw [hs] at h
    exact (h.2.2.2 c (by simp)).2

end Queue

namespace Queue

/-! ## Order of service, and the mutex during the wait -/

/-- On the store level the sends follow the order of the waitlist: when the
waitlist of `name` starts with `ws`, as many `Add` steps as `ws` is long send
their values to the channels of `ws` in order. Whether a send is received is up
to the channel. -/
theorem adds_send_in_order (name : String) (ws : List Chan) :
    ∀ (vs : List String) (rest : List Chan) (s : Storage),
      vs.length = ws.length → s.ch name = some (ws ++ rest) →
      sends s (vs.map (Ev.add name)) = ws.zip vs ∧
      (steps s (vs.map (Ev.add name))).ch name = some rest := by
  induction ws with
  | nil =>
    intro vs rest s hl hch
    have : vs = [] := List.length_eq_zero.1 hl
    subst this
    exact ⟨rfl, hch⟩
  | cons w ws ih =>
    intro vs rest s hl hch
    cases vs with
    | nil => simp at hl
    | cons v vs =>
      have hch1 : s.ch name = some (w :: (ws ++ rest)) := hch
      have hnext : (step s (.add name v)).ch name = some (ws ++ rest) := by
        have := (addBody_pops s name v w (ws ++ rest) hch1).2.1
        simp [step, this]
      obtain ⟨h1, h2⟩ := ih vs rest (step s (.add name v)) (by simpa using hl) hnext
      refine ⟨?_, ?_⟩
      · simp only [List.map_cons, sends, sendOf, hch1, Option.toList, List.zip_cons_cons]
        rw [h1]; rfl
      · simpa [steps] using h2

/-- Evaluation for claim C11. The claim says that `Subscribe` on a key without
backlog registers a waiter at the tail of the waitlist and that `m` values added
after `m` registrations are delivered to the waiters in order. Two `Subscribe`
calls on a new store register nothing (both get stuck at the lock inside `Get`)
and a later `Add` waits for the mutex. On the store level a second waiter can
be registered only after the first has given up, since the first holds the
mutex while it waits: behind a waiter parked with the mutex held (the steps
lock and subscribe on a new store) a second `Subscribe` is stuck and registers
nothing. After two waits that timed out (the steps subscribe, timeout of
channel 0, subscribe, timeout of channel 1) the channels 0 and 1 are in the
waitlist of "a" in this order, both closed, and `Add("a", "x")` and
`Add("a", "y")` both panic: neither channel gets a value and nothing is
buffered. -/
theorem waiters_not_served :
    ((run NewStorage
        [.subscribe (.withTimeout 1) "a", .subscribe (.withTimeout 1) "a"]).ch "a" = none ∧
      (Add (run NewStorage
        [.subscribe (.withTimeout 1) "a", .subscribe (.withTimeout 1) "a"])
        "a" "x").blocked = true) ∧
    ((Subscribe (steps NewStorage [.lock, .subscribe "a"]) (.withTimeout 1) "a").blocked
        = true ∧
      (Subscribe (steps NewStorage [.lock, .subscribe "a"])
        (.withTimeout 1) "a").state.ch "a" = some [0]) ∧
    ((steps NewStorage
        [.subscribe "a", .timeout 0, .subscribe "a", .timeout 1]).ch "a" = some [0, 1] ∧
      (steps NewStorage
        [.subscribe "a", .timeout 0, .subscribe "a", .timeout 1]).locked = false ∧
      (steps NewStorage
        [.subscribe "a", .timeout 0, .subscribe "a", .timeout 1]).chans 0 = .closed ∧
      (steps NewStorage
        [.subscribe "a", .timeout 0, .subscribe "a", .timeout 1]).chans 1 = .closed ∧
      (Add (steps NewStorage [.subscribe "a", .timeout 0, .subscribe "a", .timeout 1])
        "a" "x").panicked = true ∧
      (Add (Add (steps NewStorage [.subscribe "a", .timeout 0, .subscribe "a", .timeout 1])
        "a" "x").state "a" "y").panicked = true ∧
      (Add (Add (steps NewStorage [.subscribe "a", .timeout 0, .subscribe "a", .timeout 1])
        "a" "x").state "a" "y").state.chans 0 = .closed ∧
      (Add (Add (steps NewStorage [.subscribe "a", .timeout 0, .subscribe "a", .timeout 1])
        "a" "x").state "a" "y").state.chans 1 = .closed ∧
      (Add (Add (steps NewStorage [.subscribe "a", .timeout 0, .subscribe "a", .timeout 1])
        "a" "x").state "a" "y").state.repo "a" = none) := by
  decide

/-- Evaluation for claim C13. The claim says the mutex is free while a
`Subscribe` call waits. In the code the wait of lines 209-230 never touches the
mutex, which the call took at line 200 and releases only by the deferred unlock
on return: for every store and key, a call that has entered these lines with
the mutex taken and a context that is not done waits with its channel parked
and the mutex held, and every `Add` and `Get`, on any key, waits for the mutex.
The real `Subscribe` call is suspended even earlier, inside `Get`, with the
mutex held as well. -/
theorem mutex_held_while_parked (s : Storage) (name : String) :
    (∀ ctx, (waitBody s ctx name).state.locked = s.locked) ∧
    (waitBody { s with locked := true } .background name).blocked = true ∧
    (waitBody { s with locked := true } .background name).state.chans s.fresh
      = .parked ∧
    (waitBody { s with locked := true } .background name).state.locked = true ∧
    (∀ k v,
      (Add (waitBody { s with locked := true } .background name).state k v).blocked
        = true ∧
      (Get (waitBody { s with locked := true } .background name).state k).blocked
        = true) ∧
    (∀ ctx k v, (Subscribe s ctx name).state.locked = true ∧
      (Add (Subscribe s ctx name).state k v).blocked = true) := by
  have hw : ∀ ctx, (waitBody s ctx name).state.locked = s.locked := by
    intro ctx
    cases h : s.ch name <;> cases hd : ctx.done <;>
      simp [waitBody, register, close, park, Outcome.state, h, hd]
  have hp : waitBody { s with locked := true } .background name =
      .block (park (register { s with locked := true } name).2
        (register { s with locked := true } name).1) := by
    simp [waitBody, Context.done]
  have hl : (park (register { s with locked := true } name).2
      (register { s with locked := true } name).1).locked = true := by
    cases h : s.ch name <;> simp [register, park, h]
  refine ⟨hw, ?_, ?_, ?_, fun k v => ⟨?_, ?_⟩, fun ctx k v => ⟨?_, ?_⟩⟩
  · rw [hp]; rfl
  · rw [hp]; cases h : s.ch name <;> simp [Outcome.state, register, park, h]
  · rw [hp]; exact hl
  · rw [hp]; simp only [Outcome.state]; rw [Add_held _ k v hl]; rfl
  · rw [hp]; simp only [Outcome.state]; rw [Get_held _ k hl]; rfl
  · rw [Subscribe_eq_block]; rfl
  · rw [Subscribe_eq_block]; simp only [Outcome.state]; rw [Add_held _ k v rfl]; rfl

end Queue

namespace Queue

/-! ## Absent and empty entries look the same -/

theorem sameSeq_iff {α : Type} (x y : Option (List α)) :
    sameSeq x y ↔ x.getD [] = y.getD [] := by
  unfold sameSeq
  constructor
  · rintro (h | ⟨h1, h2⟩ | ⟨h1, h2⟩) <;> simp [*]
  · intro h
    cases x with
    | none =>
      cases y with
      | none => exact Or.inl rfl
      | some l => simp at h; subst h; exact Or.inr (Or.inl ⟨rfl, rfl⟩)
    | some l =>
      cases y with
      | none => simp at h; subst h; exact Or.inr (Or.inr ⟨rfl, rfl⟩)
      | some m => simp at h; subst h; exact Or.inl rfl

theorem sameSeq_refl {α : Type} (x : Option (List α)) : sameSeq x x := Or.inl rfl

/-- The critical section of `Add`, read through the content of the entries. -/
theorem addBody_eq (s : Storage) (name value : String) :
    addBody s name value =
      match (s.ch name).getD [] with
      | c :: rest => send { s with ch := Function.update s.ch name (some rest) } c value
      | [] =>
        .ret () { s with
          repo := Function.update s.repo name (some ((s.repo name).getD [] ++ [value])) } := by
  unfold addBody
  cases hc : s.ch name with
  | none => cases hr : s.repo name <;> simp
  | some l =>
    cases l with
    | nil => cases hr : s.repo name <;> simp
    | cons c rest => simp

/-- The critical section of `Get`, read through the content of the entry. -/
theorem getBody_eq (s : Storage) (name : String) :
    getBody s name =
      match (s.repo name).getD [] with
      | res :: rest =>
        ((res, none), { s with repo := Function.update s.repo name (some rest) })
      | [] => (("", some .ErrNotFound), s) := by
  unfold getBody
  cases hr : s.repo name with
  | none => simp
  | some l => cases l <;> simp

theorem Similar_update_repo {s t : Storage} (h : Similar s t) (name : String)
    (l : List String) :
    Similar { s with repo := Function.update s.repo name (some l) }
      { t with repo := Function.update t.repo name (some l) } := by
  obtain ⟨h1, h2, h3, h4, h5⟩ := h
  refine ⟨fun k => ?_, h2, h3, h4, h5⟩
  by_cases hk : k = name
  · subst hk; simp [sameSeq_refl]
  · simpa [Function.update_noteq hk] using h1 k

theorem Similar_update_ch {s t : Storage} (h : Similar s t) (name : String)
    (l : List Chan) :
    Similar { s with ch := Function.update s.ch name (some l) }
      { t with ch := Function.update t.ch name (some l) } := by
  obtain ⟨h1, h2, h3, h4, h5⟩ := h
  refine ⟨h1, fun k => ?_, h3, h4, h5⟩
  by_cases hk : k = name
  · subst hk; simp [sameSeq_refl]
  · simpa [Function.update_noteq hk] using h2 k

/-- On similar stores a send has the same result and leaves similar stores. -/
theorem send_similar {s t : Storage} (h : Similar s t) (c : Chan) (value : String) :
    (send s c value).res = (send t c value).res ∧
    Similar (send s c value).state (send t c value).state := by
  obtain ⟨h1, h2, h3, h4, h5⟩ := h
  unfold send
  rw [← h4]
  cases hc : s.chans c <;> simp only [Outcome.res, Outcome.state, true_and]
  · exact ⟨h1, h2, h3, h4, h5⟩
  · exact ⟨h1, h2, h3, by simp [h4], h5⟩
  · exact ⟨h1, h2, h3, h4, h5⟩
  · exact ⟨h1, h2, h3, h4, h5⟩

/-- On similar stores the critical section of `Add` has the same result and
leaves similar stores. -/
theorem addBody_similar {s t : Storage} (h : Similar s t) (name value : String) :
    (addBody s name value).res = (addBody t name value).res ∧
    Similar (addBody s name value).state (addBody t name value).state := by
  have hc := (sameSeq_iff _ _).1 (h.2.1 name)
  have hr := (sameSeq_iff _ _).1 (h.1 name)
  rw [addBody_eq s, addBody_eq t, ← hc, ← hr]
  cases hw : (s.ch name).getD [] with
  | nil => exact ⟨rfl, Similar_update_repo h name _⟩
  | cons c rest => exact send_similar (Similar_update_ch h name rest) c value

/-- On similar stores the critical section of `Get` returns the same and leaves
similar stores. -/
theorem getBody_similar {s t : Storage} (h : Similar s t) (name : String) :
    (getBody s name).1 = (getBody t name).1 ∧
    Similar (getBody s name).2 (getBody t name).2 := by
  have hr := (sameSeq_iff _ _).1 (h.1 name)
  rw [getBody_eq s, getBody_eq t, ← hr]
  cases hw : (s.repo name).getD [] with
  | nil => exact ⟨rfl, h⟩
  | cons v rest => exact ⟨rfl, Similar_update_repo h name rest⟩

theorem Similar_locked {s t : Storage} (h : Similar s t) (b : Bool) :
    Similar { s with locked := b } { t with locked := b } :=
  ⟨h.1, h.2.1, rfl, h.2.2.2.1, h.2.2.2.2⟩

/-- The lock wrapper carries similarity of the bodies over to the calls. -/
theorem withLock_similar {α : Type} {s t : Storage} (h : Similar s t)
    (f g : Storage → Outcome α)
    (hfg : ∀ s1 t1, Similar s1 t1 →
      (f s1).res = (g t1).res ∧ Similar (f s1).state (g t1).state) :
    (withLock s f).res = (withLock t g).res ∧
    Similar (withLock s f).state (withLock t g).state := by
  have hl : s.locked = t.locked := h.2.2.1
  unfold withLock
  rw [← hl]
  cases hs : s.locked with
  | true => exact ⟨rfl, h⟩
  | false =>
    obtain ⟨h1, h2⟩ := hfg _ _ (Similar_locked h true)
    simp only [Bool.false_eq_true, if_false]
    cases hf : f { s with locked := true } <;> cases hg : g { t with locked := true } <;>
      rw [hf, hg] at h1 h2 <;> simp only [Outcome.res, Outcome.state] at h1 h2 ⊢
    all_goals first
      | exact ⟨h1, Similar_locked h2 false⟩
      | exact ⟨h1, h2⟩
      | exact absurd h1 (by simp)

end Queue

namespace Queue

/-- On similar stores a call shows its caller the same and leaves similar
stores. -/
theorem call_similar {s t : Storage} (h : Similar s t) (c : Call) :
    reply s c = reply t c ∧ Similar (call s c) (call t c) := by
  cases c with
  | add name value =>
    obtain ⟨h1, h2⟩ := withLock_similar h (fun s1 => addBody s1 name value)
      (fun s1 => addBody s1 name value) (fun s1 t1 hs => addBody_similar hs name value)
    exact ⟨congrArg Reply.add h1, h2⟩
  | get name =>
    obtain ⟨h1, h2⟩ := withLock_similar h
      (fun s1 => Outcome.ret (getBody s1 name).1 (getBody s1 name).2)
      (fun s1 => Outcome.ret (getBody s1 name).1 (getBody s1 name).2)
      (fun s1 t1 hs => by
        obtain ⟨g1, g2⟩ := getBody_similar hs name
        exact ⟨congrArg Res.ret g1, g2⟩)
    exact ⟨congrArg Reply.get h1, h2⟩
  | subscribe ctx name =>
    simp only [reply, call, Subscribe_eq_block, Outcome.res, Outcome.state, true_and]
    exact Similar_locked h true

/-- Claim C14. Absent and present-but-empty are the same to a caller: on two
stores that differ only in that some keys are absent from a map in one and
mapped to an empty sequence in the other, every sequence of calls (`Add` and
`Get`, and `Subscribe` as well) shows the callers the same results, and the two
resulting stores again differ only in this way. -/
theorem absent_like_empty (s t : Storage) (cs : List Call) (h : Similar s t) :
    replies s cs = replies t cs ∧ Similar (run s cs) (run t cs) := by
  induction cs generalizing s t with
  | nil => exact ⟨rfl, h⟩
  | cons c cs ih =>
    obtain ⟨h1, h2⟩ := call_similar h c
    obtain ⟨h3, h4⟩ := ih (call s c) (call t c) h2
    refine ⟨?_, h4⟩
    simp only [replies, h1, h3]

theorem Similar_emptyEntries : Similar NewStorage emptyEntries := by
  refine ⟨fun k => ?_, fun k => ?_, rfl, rfl, rfl⟩
  · by_cases hk : k = "a" ∨ k = "b"
    · exact Or.inr (Or.inl ⟨rfl, by simp [emptyEntries, hk]⟩)
    · exact Or.inl (by simp [emptyEntries, NewStorage, hk])
  · by_cases hk : k = "a"
    · exact Or.inr (Or.inl ⟨rfl, by simp [emptyEntries, hk]⟩)
    · exact Or.inl (by simp [emptyEntries, NewStorage, hk])

/-- Witness of `absent_like_empty`: a new store and the store with empty entries
for "a" and "b", under `Add("a", "x")`, `Get("a")`, `Get("a")`, `Get("b")`. -/
theorem absent_like_empty_witness :
    Similar NewStorage emptyEntries ∧
    (replies NewStorage [.add "a" "x", .get "a", .get "a", .get "b"] =
        replies emptyEntries [.add "a" "x", .get "a", .get "a", .get "b"] ∧
      Similar (run NewStorage [.add "a" "x", .get "a", .get "a", .get "b"])
        (run emptyEntries [.add "a" "x", .get "a", .get "a", .get "b"])) :=
  ⟨Similar_emptyEntries,
    absent_like_empty NewStorage emptyEntries
      [.add "a" "x", .get "a", .get "a", .get "b"] Similar_emptyEntries⟩

end Queue

namespace Queue

/-! ## Key extraction -/

theorem splitSlash_ne_nil (l : List Char) : splitSlash l ≠ [] := by
  cases l with
  | nil => simp [splitSlash]
  | cons c cs =>
    unfold splitSlash
    split
    · simp
    · split <;> simp

/-- There is one piece more than there are slashes. -/
theorem splitSlash_length (l : List Char) :
    (splitSlash l).length = l.count '/' + 1 := by
  induction l with
  | nil => rfl
  | cons c cs ih =>
    unfold splitSlash
    by_cases hc : c = '/'
    · subst hc; simp [ih]
    · rw [if_neg hc]
      have hcount : (c :: cs).count '/' = cs.count '/' := by
        rw [List.count_cons_of_ne (Ne.symm hc)]
      rw [hcount, ← ih]
      cases h : splitSlash cs with
      | nil => exact absurd h (splitSlash_ne_nil cs)
      | cons p ps => simp

/-- A string without a slash is a single piece. -/
theorem splitSlash_of_not_mem (l : List Char) (h : '/' ∉ l) : splitSlash l = [l] := by
  induction l with
  | nil => rfl
  | cons c cs ih =>
    have hc : c ≠ '/' := fun e => h (e ▸ List.mem_cons_self _ _)
    have hcs : '/' ∉ cs := fun e => h (List.mem_cons_of_mem _ e)
    unfold splitSlash
    rw [if_neg hc, ih hcs]

/-- Function `path` accepts exactly the paths with one slash. -/
theorem path_ok_iff (p : String) : (path p).2 = none ↔ p.data.count '/' = 1 := by
  have hl : ((Split p).drop 1).length = p.data.count '/' := by
    simp [Split, splitSlash_length]
  unfold path
  cases h : (Split p).drop 1 with
  | nil => rw [h] at hl; simp at hl; simp [← hl]
  | cons a as =>
    cases as with
    | nil => rw [h] at hl; simp at hl; simp [← hl]
    | cons b bs => rw [h] at hl; simp at hl; simp [← hl]

/-- Function `path` answers a path with no slash or with several slashes by the
error "bad request". -/
theorem path_error (p : String) (h : p.data.count '/' ≠ 1) :
    path p = ("", some "bad request") := by
  have h1 : (path p).2 ≠ none := fun e => h ((path_ok_iff p).1 e)
  unfold path at h1 ⊢
  split
  · rename_i q hq; rw [hq] at h1; simp at h1
  · rfl

/-- Function `path` on a slash followed by a piece without slash. -/
theorem path_ok (k : String) (h : '/' ∉ k.data) : path ("/" ++ k) = (k, none) := by
  have hd : ("/" ++ k).data = '/' :: k.data := by
    rw [String.data_append]; rfl
  have hs : splitSlash ('/' :: k.data) = [[], k.data] := by
    rw [splitSlash, if_pos rfl, splitSlash_of_not_mem _ h]
  unfold path Split
  rw [hd, hs]
  rfl

/-- The pieces of a string with a slash after a first piece without slash. -/
theorem splitSlash_append (a k : List Char) (h : '/' ∉ a) :
    splitSlash (a ++ '/' :: k) = a :: splitSlash k := by
  induction a with
  | nil => simp [splitSlash]
  | cons c a ih =>
    have hc : c ≠ '/' := fun e => h (e ▸ List.mem_cons_self _ _)
    have ha : '/' ∉ a := fun e => h (List.mem_cons_of_mem _ e)
    rw [List.cons_append, splitSlash, if_neg hc, ih ha]

/-- A string with exactly one slash is a piece without slash, the slash, and a
piece without slash. -/
theorem one_slash_split (l : List Char) (h : l.count '/' = 1) :
    ∃ a k, l = a ++ '/' :: k ∧ '/' ∉ a ∧ '/' ∉ k := by
  induction l with
  | nil => simp at h
  | cons c l ih =>
    by_cases hc : c = '/'
    · subst hc
      rw [List.count_cons_self] at h
      have h0 : l.count '/' = 0 := by omega
      exact ⟨[], l, rfl, by simp, List.count_eq_zero.1 h0⟩
    · rw [List.count_cons_of_ne (Ne.symm hc)] at h
      obtain ⟨a, k, hl, ha, hk⟩ := ih h
      refine ⟨c :: a, k, by rw [hl]; rfl, ?_, hk⟩
      intro hm
      rcases List.mem_cons.1 hm with e | e
      · exact hc e.symm
      · exact ha e

/-- Function `path` on a piece without slash, a slash, and a piece without
slash: the key is the second piece, whatever the first. -/
theorem path_one_slash (a k : String) (ha : '/' ∉ a.data) (hk : '/' ∉ k.data) :
    path (a ++ "/" ++ k) = (k, none) := by
  have hd : (a ++ "/" ++ k).data = a.data ++ '/' :: k.data := by
    rw [String.data_append, String.data_append]
    simp
  have hs : splitSlash (a.data ++ '/' :: k.data) = [a.data, k.data] := by
    rw [splitSlash_append _ _ ha, splitSlash_of_not_mem _ hk]
  unfold path Split
  rw [hd, hs]
  rfl

end Queue

namespace Queue

/-! ## The handler -/

/-- A `GET` or `PUT` on a path that `path` rejects is answered by 400 with an
empty body, whatever the store and the parameters, and the store stays as it
is. -/
theorem handle_bad_path (s : Storage) (r : Request)
    (hm : r.method = .GET ∨ r.method = .PUT) (hp : path r.urlPath = ("", some "bad request")) :
    handle s r = .ret ⟨400, ""⟩ s := by
  rcases hm with hm | hm <;> simp [handle, hm, hp]

/-- Counterexample to claim C15 as stated: the path "/", whose only segment is
empty, is not rejected. Function `path` returns the empty key with a nil error,
and a `GET` on "/" is answered like a `GET` on any key without backlog, by 404
and not by 400. -/
theorem path_accepts_empty_segment :
    path "/" = ("", none) ∧
    (handle NewStorage ⟨.GET, "/", "", ""⟩).result = some ⟨404, ""⟩ := by
  decide

/-- Claim C15, amended. Function `path` returns a nil error exactly for the
paths that contain exactly one slash. For every other path (no slash, or
several segments such as "/a/b") it returns the error "bad request", and the
handler answers a `GET` or a `PUT` on such a path by 400 with an empty body,
whatever the store, and leaves the store unchanged. Every path with exactly
one slash is accepted: it is a piece without slash, the slash and a piece
without slash, and `path` returns the piece after the slash, empty or not, as
the key with a nil error. -/
theorem path_rejects_other_shapes (p : String) :
    ((path p).2 = none ↔ p.data.count '/' = 1) ∧
    (p.data.count '/' ≠ 1 →
      path p = ("", some "bad request") ∧
      ∀ (s : Storage) (r : Request), r.urlPath = p →
        (r.method = .GET ∨ r.method = .PUT) → handle s r = .ret ⟨400, ""⟩ s) ∧
    (p.data.count '/' = 1 →
      ∃ a k : String, p = a ++ "/" ++ k ∧ '/' ∉ a.data ∧ '/' ∉ k.data ∧
        path p = (k, none)) ∧
    (∀ a k : String, '/' ∉ a.data → '/' ∉ k.data → path (a ++ "/" ++ k) = (k, none)) := by
  refine ⟨path_ok_iff p, fun h => ⟨path_error p h, fun s r hr hm => ?_⟩, fun h => ?_,
    path_one_slash⟩
  · exact handle_bad_path s r hm (hr ▸ path_error p h)
  · obtain ⟨a, k, hl, ha, hk⟩ := one_slash_split p.data h
    have hp : p = String.mk a ++ "/" ++ String.mk k := by
      apply String.ext
      rw [String.data_append, String.data_append, hl]
      simp
    exact ⟨String.mk a, String.mk k, hp, ha, hk, hp ▸ path_one_slash _ _ ha hk⟩

/-- Witness of `path_rejects_other_shapes`: the path "/a/b" with a `PUT` on the
store that holds "x" under "a" is rejected, and the path "/" is accepted with
the empty key. -/
theorem path_rejects_other_shapes_witness :
    (("/a/b".data.count '/' ≠ 1) ∧
      path "/a/b" = ("", some "bad request") ∧
      handle (run NewStorage [.add "a" "x"]) ⟨.PUT, "/a/b", "", "y"⟩ =
        .ret ⟨400, ""⟩ (run NewStorage [.add "a" "x"])) ∧
    (('/' ∉ "".data) ∧ path ("" ++ "/" ++ "") = ("", none)) :=
  have h := (path_rejects_other_shapes "/a/b").2.1 (by decide)
  ⟨⟨by decide, h.1, h.2 _ ⟨.PUT, "/a/b", "", "y"⟩ rfl (Or.inr rfl)⟩,
    ⟨by decide, (path_rejects_other_shapes "/a/b").2.2.2 "" "" (by decide) (by decide)⟩⟩

end Queue

namespace Queue

/-- A `GET` without timeout parameter on a path that `path` accepts is the call
`Get(key)` with its result turned into a response. -/
theorem handle_get (s : Storage) (r : Request) (key : String) (hm : r.method = .GET)
    (hp : path r.urlPath = (key, none)) (ht : r.timeout = "") :
    handle s r =
      match Get s key with
      | .ret (value, err) s1 =>
        if err = some .ErrNotFound then .ret ⟨404, ""⟩ s1 else .ret ⟨200, value⟩ s1
      | .block s1 => .block s1
      | .panic s1 => .panic s1 := by
  simp [handle, hm, hp, ht]

/-- Claim C17. For every store with the mutex free and every `GET` request
without timeout parameter whose path is a slash followed by one segment
without slash: when the backlog of the key is absent or empty the handler
answers 404 with an empty body and leaves the store unchanged; otherwise it
answers 200 with the oldest buffered value as body and removes that value. In
particular `PUT /a?v=x`, `GET /a`, `GET /a` on a new store are answered by 200,
by 200 with body "x", and by 404. -/
theorem get_request :
    (∀ (s : Storage) (r : Request) (key : String),
      r.method = .GET → r.urlPath = "/" ++ key → '/' ∉ key.data → r.timeout = "" →
      s.locked = false →
      (noBacklog s key → handle s r = .ret ⟨404, ""⟩ s) ∧
      (∀ v rest, s.repo key = some (v :: rest) →
        handle s r = .ret ⟨200, v⟩
          { s with repo := Function.update s.repo key (some rest) })) ∧
    answers NewStorage [⟨.PUT, "/a", "", "x"⟩, ⟨.GET, "/a", "", ""⟩, ⟨.GET, "/a", "", ""⟩] =
      [some ⟨200, ""⟩, some ⟨200, "x"⟩, some ⟨404, ""⟩] := by
  refine ⟨fun s r key hm hu hk ht hl => ?_, by decide⟩
  have hp : path r.urlPath = (key, none) := hu ▸ path_ok key hk
  have hh := handle_get s r key hm hp ht
  refine ⟨fun hb => ?_, fun v rest hr => ?_⟩
  · rw [hh, Get_empty s key hl hb]; rfl
  · rw [hh, Get_pops s key v rest hl hr]; rfl

/-- Witness of `get_request`: `GET /a` on the store that holds "x" and "y" under
"a" is answered by 200 with body "x", and "y" stays. -/
theorem get_request_witness :
    handle (run NewStorage [.add "a" "x", .add "a" "y"]) ⟨.GET, "/a", "", ""⟩ =
      .ret ⟨200, "x"⟩
        { run NewStorage [.add "a" "x", .add "a" "y"] with
          repo := Function.update (run NewStorage [.add "a" "x", .add "a" "y"]).repo "a"
            (some ["y"]) } :=
  (get_request.1 (run NewStorage [.add "a" "x", .add "a" "y"]) ⟨.GET, "/a", "", ""⟩ "a"
    rfl rfl (by decide) rfl (by decide)).2 "x" ["y"] (by decide)

/-- Claim C18. For every string `k` that contains no slash (empty or not),
`path` on "/" followed by `k` returns `k` itself with a nil error. -/
theorem path_returns_segment (k : String) (h : '/' ∉ k.data) :
    path ("/" ++ k) = (k, none) :=
  path_ok k h

/-- Witness of `path_returns_segment`: the key "queue-1". -/
theorem path_returns_segment_witness :
    '/' ∉ "queue-1".data ∧ path ("/" ++ "queue-1") = ("queue-1", none) :=
  ⟨by decide, path_returns_segment "queue-1" (by decide)⟩

end Queue

namespace Queue

/-! ## Stored values are never empty -/

/-- The condition looks at the backlogs and at the channels only. -/
theorem valuesNonEmpty_of_eq {s t : Storage} (hr : t.repo = s.repo)
    (hc : t.chans = s.chans) (h : valuesNonEmpty s) : valuesNonEmpty t :=
  ⟨fun k l hk => h.1 k l (hr ▸ hk), fun c v hv => h.2 c v (hc ▸ hv)⟩

/-- The state a call under the lock leaves is the old one, or the one its body
leaves, up to the mutex. -/
theorem withLock_state {α : Type} (s : Storage) (body : Storage → Outcome α) :
    (withLock s body).state = s ∨
    ∃ b, (withLock s body).state = { (body { s with locked := true }).state with locked := b } := by
  unfold withLock
  split
  · exact Or.inl rfl
  · right
    cases h : body { s with locked := true } with
    | ret a s1 => exact ⟨false, rfl⟩
    | panic s1 => exact ⟨false, rfl⟩
    | block s1 => exact ⟨s1.locked, rfl⟩

/-- The critical section of `Add` with a non-empty value keeps all stored and
handed values non-empty. -/
theorem addBody_valuesNonEmpty (s : Storage) (name value : String) (hv : value ≠ "")
    (h : valuesNonEmpty s) : valuesNonEmpty (addBody s name value).state := by
  by_cases hw : noWaiters s name
  · rw [addBody_buffers s name value hw]
    refine ⟨fun k l hk => ?_, h.2⟩
    by_cases hkn : k = name
    · subst hkn
      simp only [Function.update_same, Option.some.injEq] at hk
      subst hk
      intro hmem
      rw [List.mem_append, List.mem_singleton] at hmem
      rcases hmem with hmem | hmem
      · cases hr : s.repo k with
        | none => rw [hr] at hmem; simp at hmem
        | some l0 => rw [hr] at hmem; exact h.1 k l0 hr hmem
      · exact hv hmem.symm
    · simp only [Function.update_noteq hkn] at hk
      exact h.1 k l hk
  · obtain ⟨c, rest, hch⟩ : ∃ c rest, s.ch name = some (c :: rest) := by
      cases hc : s.ch name with
      | none => exact absurd (Or.inl hc) hw
      | some l =>
        cases l with
        | nil => exact absurd (Or.inr hc) hw
        | cons c rest => exact ⟨c, rest, rfl⟩
    unfold addBody
    rw [hch]
    unfold send
    dsimp only
    split
    · refine ⟨h.1, fun c1 v1 h1 => ?_⟩
      simp only [Outcome.state] at h1
      by_cases hcc : c1 = c
      · subst hcc
        simp only [Function.update_same, ChanStatus.got.injEq] at h1
        exact h1 ▸ hv
      · simp only [Function.update_noteq hcc] at h1
        exact h.2 c1 v1 h1
    · exact ⟨h.1, h.2⟩
    · exact ⟨h.1, h.2⟩
    · exact ⟨h.1, h.2⟩

/-- The critical section of `Get` keeps all stored and handed values
non-empty. -/
theorem getBody_valuesNonEmpty (s : Storage) (name : String) (h : valuesNonEmpty s) :
    valuesNonEmpty (getBody s name).2 := by
  rcases getBody_cases s name with ⟨_, he⟩ | ⟨v, rest, hr, he⟩
  · rw [he]; exact h
  · rw [he]
    refine ⟨fun k l hk => ?_, h.2⟩
    by_cases hkn : k = name
    · subst hkn
      simp only [Function.update_same, Option.some.injEq] at hk
      subst hk
      exact fun hmem => h.1 k (v :: rest) hr (List.mem_cons_of_mem _ hmem)
    · simp only [Function.update_noteq hkn] at hk
      exact h.1 k l hk

/-- The call `Add` with a non-empty value keeps the condition. -/
theorem Add_valuesNonEmpty (s : Storage) (name value : String) (hv : value ≠ "")
    (h : valuesNonEmpty s) : valuesNonEmpty (Add s name value).state := by
  rcases withLock_state s (fun s1 => addBody s1 name value) with h1 | ⟨b, h1⟩
  · unfold Add; rw [h1]; exact h
  · unfold Add; rw [h1]
    exact valuesNonEmpty_of_eq rfl rfl
      (addBody_valuesNonEmpty _ name value hv (valuesNonEmpty_of_eq (s := s) rfl rfl h))

/-- The call `Get` keeps the condition. -/
theorem Get_valuesNonEmpty (s : Storage) (name : String) (h : valuesNonEmpty s) :
    valuesNonEmpty (Get s name).state := by
  rcases withLock_state s
    (fun s1 => Outcome.ret (getBody s1 name).1 (getBody s1 name).2) with h1 | ⟨b, h1⟩
  · unfold Get; rw [h1]; exact h
  · unfold Get; rw [h1]
    exact valuesNonEmpty_of_eq rfl rfl
      (getBody_valuesNonEmpty _ name (valuesNonEmpty_of_eq (s := s) rfl rfl h))

/-- The state the handler leaves: the old one, the old one with the mutex taken
(a `GET` with timeout), the state a `Get` leaves, or the state an `Add` of a
non-empty value leaves. -/
theorem handle_state (s : Storage) (r : Request) :
    (handle s r).state = s ∨ (handle s r).state = { s with locked := true } ∨
    (∃ key, (handle s r).state = (Get s key).state) ∨
    (∃ key, r.v ≠ "" ∧ (handle s r).state = (Add s key r.v).state) := by
  unfold handle
  cases hm : r.method with
  | other => exact Or.inl rfl
  | GET =>
    cases hq : path r.urlPath with
    | mk key e =>
      cases e with
      | some m => exact Or.inl rfl
      | none =>
        by_cases ht : r.timeout = ""
        · right; right; left
          refine ⟨key, ?_⟩
          simp only [ht, ne_eq, not_true_eq_false, if_false]
          cases hg : Get s key with
          | ret a s1 => obtain ⟨value, err⟩ := a; dsimp only; split <;> rfl
          | block s1 => rfl
          | panic s1 => rfl
        · simp only [ne_eq, ht, not_false_eq_true, if_true]
          cases ha : Atoi r.timeout with
          | none => exact Or.inl rfl
          | some t =>
            right; left
            simp [Subscribe_eq_block, Outcome.state]
  | PUT =>
    cases hq : path r.urlPath with
    | mk key e =>
      cases e with
      | some m => exact Or.inl rfl
      | none =>
        by_cases hv : r.v = ""
        · left; simp [hv, Outcome.state]
        · right; right; right
          refine ⟨key, hv, ?_⟩
          simp only [hv, if_false]
          cases Add s key r.v <;> rfl

/-- The handler keeps all stored and handed values non-empty. -/
theorem handle_valuesNonEmpty (s : Storage) (r : Request) (h : valuesNonEmpty s) :
    valuesNonEmpty (handle s r).state := by
  rcases handle_state s r with h1 | h1 | ⟨key, h1⟩ | ⟨key, hv, h1⟩
  · rw [h1]; exact h
  · rw [h1]; exact valuesNonEmpty_of_eq (s := s) rfl rfl h
  · rw [h1]; exact Get_valuesNonEmpty s key h
  · rw [h1]; exact Add_valuesNonEmpty s key r.v hv h

/-- Claim C20. After every sequence of HTTP requests handled from a new store,
every value held in a backlog and every value handed to a waiter is a non-empty
string: the only call of `Add` the handler makes has a non-empty `v`. So an
empty string returned by `Subscribe` is never a value that was stored. More
generally the handler keeps this condition on every store that has it. -/
theorem stored_values_non_empty :
    (∀ rs : List Request, valuesNonEmpty (serve NewStorage rs)) ∧
    (∀ (s : Storage) (r : Request), valuesNonEmpty s → valuesNonEmpty (handle s r).state) := by
  refine ⟨fun rs => ?_, handle_valuesNonEmpty⟩
  have h0 : valuesNonEmpty NewStorage :=
    ⟨fun k l hk => by simp [NewStorage] at hk, fun c v hv => by simp [NewStorage] at hv⟩
  have key : ∀ (rs : List Request) (s : Storage),
      valuesNonEmpty s → valuesNonEmpty (serve s rs) := by
    intro rs
    induction rs with
    | nil => intro s h; exact h
    | cons r rs ih => intro s h; exact ih _ (handle_valuesNonEmpty s r h)
  exact key rs NewStorage h0

end Queue

namespace Queue

/-! ## Insertion requests -/

/-- The call `Get` leaves the waitlists alone. -/
theorem Get_ch (s : Storage) (name : String) : (Get s name).state.ch = s.ch := by
  rcases withLock_state s
    (fun s1 => Outcome.ret (getBody s1 name).1 (getBody s1 name).2) with h1 | ⟨b, h1⟩
  · unfold Get; rw [h1]
  · unfold Get; rw [h1]
    rcases getBody_cases { s with locked := true } name with ⟨_, he⟩ | ⟨v, rest, _, he⟩ <;>
      simp [Outcome.state, he]

/-- The call `Add` on a key without waiter leaves the waitlists alone. -/
theorem Add_ch (s : Storage) (name value : String) (hw : noWaiters s name) :
    (Add s name value).state.ch = s.ch := by
  rcases withLock_state s (fun s1 => addBody s1 name value) with h1 | ⟨b, h1⟩
  · unfold Add; rw [h1]
  · unfold Add; rw [h1]
    have hw1 : noWaiters { s with locked := true } name := hw
    simp only [addBody_buffers _ name value hw1]

/-- The handler registers no waiter: on a store without waiters it leaves a
store without waiters. -/
theorem handle_noWaiters (s : Storage) (r : Request) (h : ∀ k, noWaiters s k) :
    ∀ k, noWaiters (handle s r).state k := by
  intro k
  rcases handle_state s r with h1 | h1 | ⟨key, h1⟩ | ⟨key, _, h1⟩
  · rw [h1]; exact h k
  · rw [h1]; exact h k
  · rw [h1]; exact (noWaiters_congr (congrFun (Get_ch s key) k)).2 (h k)
  · rw [h1]; exact (noWaiters_congr (congrFun (Add_ch s key r.v (h key)) k)).2 (h k)

/-- No sequence of requests handled from a new store ever registers a waiter. -/
theorem serve_noWaiters (rs : List Request) : ∀ k, noWaiters (serve NewStorage rs) k := by
  have key : ∀ (rs : List Request) (s : Storage),
      (∀ k, noWaiters s k) → ∀ k, noWaiters (serve s rs) k := by
    intro rs
    induction rs with
    | nil => intro s h; exact h
    | cons r rs ih => intro s h; exact ih _ (handle_noWaiters s r h)
  exact key rs NewStorage fun k => Or.inl rfl

/-- Counterexample to claim C16 as stated: a `PUT` on the path "/", which has
no key, with `v=x` is not answered by 400. The handler calls `Add` with the
empty key, the store changes, and the answer is 200. -/
theorem put_accepts_empty_key :
    (handle NewStorage ⟨.PUT, "/", "", "x"⟩).result = some ⟨200, ""⟩ ∧
    (handle NewStorage ⟨.PUT, "/", "", "x"⟩).state.repo "" = some ["x"] ∧
    NewStorage.repo "" = none := by
  decide

/-- Claim C16, amended. For every store and every `PUT` request: when `path`
returns an error (the path does not contain exactly one slash) or the parameter
`v` is empty, the handler answers 400 with an empty body and leaves the store
unchanged; otherwise, with the key `path` returns (the empty key for the path
"/"), it makes exactly one call `Add(key, v)`, so that the store it leaves is
the one this call leaves, and, the mutex being free, it answers 200 with an
empty body: with `v` at the tail of the backlog of the key when the key has no
waiter, as is the case in every store the server reaches from a new store, and
with `v` handed to the oldest waiter of the key when there is one. -/
theorem put_request (s : Storage) (r : Request) (key : String) (hm : r.method = .PUT) :
    (((path r.urlPath).2 ≠ none ∨ r.v = "") → handle s r = .ret ⟨400, ""⟩ s) ∧
    (path r.urlPath = (key, none) → r.v ≠ "" →
      (handle s r).state = (Add s key r.v).state ∧
      (s.locked = false → noWaiters s key →
        handle s r = .ret ⟨200, ""⟩
          { s with repo := Function.update s.repo key
                     (some ((s.repo key).getD [] ++ [r.v])) }) ∧
      (s.locked = false → (∃ rs, s = serve NewStorage rs) →
        handle s r = .ret ⟨200, ""⟩
          { s with repo := Function.update s.repo key
                     (some ((s.repo key).getD [] ++ [r.v])) }) ∧
      (s.locked = false → ∀ w ws, s.ch key = some (w :: ws) → s.chans w = .parked →
        handle s r = .ret ⟨200, ""⟩
          { s with ch := Function.update s.ch key (some ws)
                   chans := Function.update s.chans w (.got r.v) })) := by
  refine ⟨fun h => ?_, fun hp hv => ?_⟩
  · rcases h with h | h
    · cases hq : path r.urlPath with
      | mk k e =>
        cases e with
        | none => rw [hq] at h; exact absurd rfl h
        | some m => simp [handle, hm, hq]
    · cases hq : path r.urlPath with
      | mk k e => cases e <;> simp [handle, hm, hq, h]
  · have hh : handle s r =
        match Add s key r.v with
        | .ret _ s1 => .ret ⟨200, ""⟩ s1
        | .block s1 => .block s1
        | .panic s1 => .panic s1 := by
      simp [handle, hm, hp, hv]
    refine ⟨?_, fun hl hw => ?_, fun hl hs => ?_, fun hl w ws hw hc => ?_⟩
    · rw [hh]; cases Add s key r.v <;> rfl
    · rw [hh, Add_buffers s key r.v hl hw]
    · obtain ⟨rs, hrs⟩ := hs
      have hw : noWaiters s key := hrs ▸ serve_noWaiters rs key
      rw [hh, Add_buffers s key r.v hl hw]
    · rw [hh, Add_hands_over s key r.v w ws hl hw hc]

/-- Witness of `put_request`: `PUT /a?v=x` on a new store. -/
theorem put_request_witness :
    handle NewStorage ⟨.PUT, "/a", "", "x"⟩ =
      .ret ⟨200, ""⟩
        { NewStorage with repo := Function.update NewStorage.repo "a"
                            (some ((NewStorage.repo "a").getD [] ++ ["x"])) } :=
  ((put_request NewStorage ⟨.PUT, "/a", "", "x"⟩ "a" rfl).2 (by decide) (by decide)).2.1
    rfl (Or.inl rfl)

end Queue
